import Mathlib

/-!
Verification of the `Once` one-time-initialization primitive
(`src/once.rs` of the `parking_lot` repository).

The source is embedded as a small-step interleaving semantics: the shared
atomic status byte becomes a `Nat` (always `< 16`; bit constants as in the
source), and each thread executing `call_once` / `call_once_force` /
`call_once_slow` is a program counter (`Phase`) plus its immutable call
parameters (`force` = which entry point, `panics` = whether its closure
unwinds) and a ghost counter `invoked` recording how many times its closure
ran.  Every atomic operation of the source (load, compare-exchange, swap,
park under its validation predicate, unpark-all) is one transition of the
`OnceStep` relation; memory-ordering annotations of the source are noted in
comments since the interleaving semantics is sequentially consistent.
-/

set_option maxHeartbeats 1000000

namespace ParkingLotOnce

/-- `DONE_BIT` (src/once.rs line 20). -/
def DONE_BIT : Nat := 1

/-- `POISON_BIT` (src/once.rs line 21). -/
def POISON_BIT : Nat := 2

/-- `LOCKED_BIT` (src/once.rs line 22). -/
def LOCKED_BIT : Nat := 4

/-- `PARKED_BIT` (src/once.rs line 23). -/
def PARKED_BIT : Nat := 8

/-- `OnceState` (src/once.rs line 27): a single boolean wrapper. -/
structure OnceState where
  val : Bool
deriving DecidableEq

/-- `OnceState::poisoned` (src/once.rs lines 35-37): returns the wrapped boolean. -/
def OnceState.poisoned (s : OnceState) : Bool := s.val

/-- The fast-path test of `call_once` (line 136) and `call_once_force`
(line 157): the acquire-ordered load of the status compared for *equality*
with `DONE_BIT`. -/
def fastPathHit (status : Nat) : Bool := status == DONE_BIT

/-- Program counter of one thread running `call_once`/`call_once_force`.

* `fastLoad` — about to perform the fast-path acquire load (line 136 / 157).
* `loopLoad` — about to perform a relaxed load feeding the slow-path loop
  (line 183, 217 or 249).
* `loopBody s` — at the top of the slow-path loop (line 184) holding the
  local snapshot `state = s`.
* `tryPark` — about to call `parking_lot_core::park` (lines 234-245); the
  validation predicate runs atomically with enqueueing.
* `parked` — enqueued in the parking lot, waiting for `unpark_all`.
* `running st` — won the lock-acquiring compare-exchange (line 209 `break`);
  about to invoke the closure with the given `OnceState` (line 270).
* `unwindSwap` — the closure unwound; the `PanicGuard` drop is about to
  perform `swap(POISON_BIT, Release)` (line 257).
* `doneSwap` — the closure returned normally (guard disarmed by
  `mem::forget`, line 271); about to perform `swap(DONE_BIT, Release)`
  (line 274).
* `unparkOp pk need` — after a swap that read `need = (old & PARKED_BIT != 0)`;
  about to call `unpark_all` when `need` (lines 258-263 / 275-280); `pk`
  records whether this is the poison path (and the call then re-raises the
  panic) or the success path.
* `retDone` — the call returned normally.
* `retPanic` — the call terminated by panicking. -/
inductive Phase where
  | fastLoad : Phase
  | loopLoad : Phase
  | loopBody : Nat → Phase
  | tryPark : Phase
  | parked : Phase
  | running : OnceState → Phase
  | unwindSwap : Phase
  | doneSwap : Phase
  | unparkOp : Bool → Bool → Phase
  | retDone : Phase
  | retPanic : Phase
deriving DecidableEq

/-- One thread: its entry point (`force = true` for `call_once_force`),
whether its closure panics when invoked, its program counter, and a ghost
count of how many times its closure has been invoked. -/
structure Thread where
  force : Bool
  panics : Bool
  phase : Phase
  invoked : Nat
deriving DecidableEq

/-- Global state: the shared atomic status byte plus all threads. -/
structure GState where
  status : Nat
  threads : List Thread
deriving DecidableEq

/-- Effect of `unpark_all` on one thread: a parked thread resumes at the
reload after `park` returns (lines 248-249). -/
def wake (t : Thread) : Thread :=
  if t.phase = Phase.parked then { t with phase := Phase.loopLoad } else t

/-- One atomic step of the system, interleaving the threads.  Each
constructor corresponds to one atomic operation of `src/once.rs`. -/
inductive OnceStep : GState → GState → Prop where
  /-- Fast path (line 136 / 157): the acquire load equals `DONE_BIT`;
  return immediately. -/
  | fastHit (g : GState) (i : Nat) (t : Thread)
      (ht : g.threads[i]? = some t) (hp : t.phase = Phase.fastLoad)
      (hs : fastPathHit g.status = true) :
      OnceStep g ⟨g.status, g.threads.set i { t with phase := Phase.retDone }⟩
  /-- Fast path misses; enter `call_once_slow`, whose first action is the
  relaxed load of line 183. -/
  | fastMiss (g : GState) (i : Nat) (t : Thread)
      (ht : g.threads[i]? = some t) (hp : t.phase = Phase.fastLoad)
      (hs : fastPathHit g.status = false) :
      OnceStep g ⟨g.status, g.threads.set i { t with phase := Phase.loopLoad }⟩
  /-- A relaxed load of the status producing the loop snapshot
  (line 183 / 217 / 249). -/
  | loadSnap (g : GState) (i : Nat) (t : Thread)
      (ht : g.threads[i]? = some t) (hp : t.phase = Phase.loopLoad) :
      OnceStep g ⟨g.status, g.threads.set i { t with phase := Phase.loopBody g.status }⟩
  /-- Lines 186-191: the snapshot has `DONE_BIT`; acquire fence, then return. -/
  | bodyDone (g : GState) (i : Nat) (t : Thread) (s : Nat)
      (ht : g.threads[i]? = some t) (hp : t.phase = Phase.loopBody s)
      (hd : s &&& DONE_BIT ≠ 0) :
      OnceStep g ⟨g.status, g.threads.set i { t with phase := Phase.retDone }⟩
  /-- Lines 193-198: poisoned and not forcing; acquire fence, then panic. -/
  | bodyPoison (g : GState) (i : Nat) (t : Thread) (s : Nat)
      (ht : g.threads[i]? = some t) (hp : t.phase = Phase.loopBody s)
      (hd : s &&& DONE_BIT = 0) (hps : s &&& POISON_BIT ≠ 0) (hf : t.force = false) :
      OnceStep g ⟨g.status, g.threads.set i { t with phase := Phase.retPanic }⟩
  /-- Lines 203-213, successful case: the lock-acquiring
  `compare_exchange_weak(state, (state | LOCKED_BIT) & !POISON_BIT,
  Acquire, Relaxed)` succeeds (the byte-complement of `POISON_BIT` is
  `255 ^^^ POISON_BIT`); break out of the loop carrying
  `OnceState(state & POISON_BIT != 0)` (line 270). -/
  | acqOk (g : GState) (i : Nat) (t : Thread) (s : Nat)
      (ht : g.threads[i]? = some t) (hp : t.phase = Phase.loopBody s)
      (hd : s &&& DONE_BIT = 0) (hps : s &&& POISON_BIT = 0 ∨ t.force = true)
      (hl : s &&& LOCKED_BIT = 0) (he : g.status = s) :
      OnceStep g ⟨(s ||| LOCKED_BIT) &&& (255 ^^^ POISON_BIT),
        g.threads.set i { t with phase := Phase.running ⟨s &&& POISON_BIT != 0⟩ }⟩
  /-- Lines 203-213, failure case (including spurious weak-CAS failure):
  `Err(x)` sets the snapshot to the current value and retries the loop. -/
  | acqFail (g : GState) (i : Nat) (t : Thread) (s : Nat)
      (ht : g.threads[i]? = some t) (hp : t.phase = Phase.loopBody s)
      (hd : s &&& DONE_BIT = 0) (hps : s &&& POISON_BIT = 0 ∨ t.force = true)
      (hl : s &&& LOCKED_BIT = 0) :
      OnceStep g ⟨g.status, g.threads.set i { t with phase := Phase.loopBody g.status }⟩
  /-- Line 216: locked, no queue, and `spinwait.spin()` says to keep
  spinning; reload and retry. -/
  | spinRetry (g : GState) (i : Nat) (t : Thread) (s : Nat)
      (ht : g.threads[i]? = some t) (hp : t.phase = Phase.loopBody s)
      (hd : s &&& DONE_BIT = 0) (hps : s &&& POISON_BIT = 0 ∨ t.force = true)
      (hl : s &&& LOCKED_BIT ≠ 0) (hpk : s &&& PARKED_BIT = 0) :
      OnceStep g ⟨g.status, g.threads.set i { t with phase := Phase.loopLoad }⟩
  /-- Lines 222-230, success: spinning exhausted, the relaxed
  `compare_exchange_weak(state, state | PARKED_BIT)` succeeds; fall through
  to `park`. -/
  | parkCasOk (g : GState) (i : Nat) (t : Thread) (s : Nat)
      (ht : g.threads[i]? = some t) (hp : t.phase = Phase.loopBody s)
      (hd : s &&& DONE_BIT = 0) (hps : s &&& POISON_BIT = 0 ∨ t.force = true)
      (hl : s &&& LOCKED_BIT ≠ 0) (hpk : s &&& PARKED_BIT = 0) (he : g.status = s) :
      OnceStep g ⟨s ||| PARKED_BIT, g.threads.set i { t with phase := Phase.tryPark }⟩
  /-- Lines 222-230, failure: `Err(x)` updates the snapshot and retries. -/
  | parkCasFail (g : GState) (i : Nat) (t : Thread) (s : Nat)
      (ht : g.threads[i]? = some t) (hp : t.phase = Phase.loopBody s)
      (hd : s &&& DONE_BIT = 0) (hps : s &&& POISON_BIT = 0 ∨ t.force = true)
      (hl : s &&& LOCKED_BIT ≠ 0) (hpk : s &&& PARKED_BIT = 0) :
      OnceStep g ⟨g.status, g.threads.set i { t with phase := Phase.loopBody g.status }⟩
  /-- Line 222 false branch: `PARKED_BIT` already set in the snapshot;
  go directly to `park`. -/
  | toPark (g : GState) (i : Nat) (t : Thread) (s : Nat)
      (ht : g.threads[i]? = some t) (hp : t.phase = Phase.loopBody s)
      (hd : s &&& DONE_BIT = 0) (hps : s &&& POISON_BIT = 0 ∨ t.force = true)
      (hl : s &&& LOCKED_BIT ≠ 0) (hpk : s &&& PARKED_BIT ≠ 0) :
      OnceStep g ⟨g.status, g.threads.set i { t with phase := Phase.tryPark }⟩
  /-- Lines 234-245: `park` validates `status == LOCKED_BIT | PARKED_BIT`
  (line 236) atomically with enqueueing and the thread goes to sleep. -/
  | parkEnq (g : GState) (i : Nat) (t : Thread)
      (ht : g.threads[i]? = some t) (hp : t.phase = Phase.tryPark)
      (hv : g.status = LOCKED_BIT ||| PARKED_BIT) :
      OnceStep g ⟨g.status, g.threads.set i { t with phase := Phase.parked }⟩
  /-- Lines 234-249: the validation predicate fails, `park` returns at once;
  `spinwait.reset()` and reload (line 249). -/
  | parkAbort (g : GState) (i : Nat) (t : Thread)
      (ht : g.threads[i]? = some t) (hp : t.phase = Phase.tryPark)
      (hv : g.status ≠ LOCKED_BIT ||| PARKED_BIT) :
      OnceStep g ⟨g.status, g.threads.set i { t with phase := Phase.loopLoad }⟩
  /-- Line 270: invoke the closure while holding the lock.  A normal return
  reaches `mem::forget(guard)` (line 271), disarming the panic guard and
  proceeding to the `DONE` swap; an unwinding closure instead triggers the
  `PanicGuard` drop. -/
  | invoke (g : GState) (i : Nat) (t : Thread) (st : OnceState)
      (ht : g.threads[i]? = some t) (hp : t.phase = Phase.running st) :
      OnceStep g ⟨g.status,
        g.threads.set i { t with
          phase := if t.panics then Phase.unwindSwap else Phase.doneSwap,
          invoked := t.invoked + 1 }⟩
  /-- Lines 256-257: `PanicGuard::drop` performs
  `swap(POISON_BIT, Release)`, remembering whether the old value had
  `PARKED_BIT` (line 258). -/
  | poisonSwap (g : GState) (i : Nat) (t : Thread)
      (ht : g.threads[i]? = some t) (hp : t.phase = Phase.unwindSwap) :
      OnceStep g ⟨POISON_BIT,
        g.threads.set i { t with phase := Phase.unparkOp true (g.status &&& PARKED_BIT != 0) }⟩
  /-- Line 274: `swap(DONE_BIT, Release)`, remembering whether the old value
  had `PARKED_BIT` (line 275). -/
  | completeSwap (g : GState) (i : Nat) (t : Thread)
      (ht : g.threads[i]? = some t) (hp : t.phase = Phase.doneSwap) :
      OnceStep g ⟨DONE_BIT,
        g.threads.set i { t with phase := Phase.unparkOp false (g.status &&& PARKED_BIT != 0) }⟩
  /-- Lines 258-263 / 275-280: call `unpark_all` exactly when the swapped-out
  status had `PARKED_BIT`, then finish (re-raising the panic on the poison
  path). -/
  | unparkRun (g : GState) (i : Nat) (t : Thread) (pk need : Bool)
      (ht : g.threads[i]? = some t) (hp : t.phase = Phase.unparkOp pk need) :
      OnceStep g ⟨g.status,
        (if need then g.threads.map wake else g.threads).set i
          { t with phase := if pk then Phase.retPanic else Phase.retDone }⟩

/-- The threads of `Once::new() / ONCE_INIT` runs: status `0` (lines 66,
73, 80), every thread at its entry point, no closure invoked yet. -/
def initThreads (ps : List (Bool × Bool)) : List Thread :=
  ps.map fun p => ⟨p.1, p.2, Phase.fastLoad, 0⟩

/-- Initial global state for a given list of callers (entry point, panics). -/
def initG (ps : List (Bool × Bool)) : GState := ⟨0, initThreads ps⟩

/-- Reachability of a global state from a fresh `Once` with the given
callers, under arbitrary interleaving. -/
def Reach (ps : List (Bool × Bool)) (g : GState) : Prop :=
  Relation.ReflTransGen OnceStep (initG ps) g

/-! ### List-lookup helpers -/

theorem lookup_lt {l : List Thread} {i : Nat} {t : Thread} (ht : l[i]? = some t) :
    i < l.length := by
  by_contra hlt
  rw [List.getElem?_eq_none (Nat.le_of_not_lt hlt)] at ht
  cases ht

theorem lookup_set_self {l : List Thread} {i : Nat} {t a : Thread}
    (ht : l[i]? = some t) : (l.set i a)[i]? = some a :=
  List.getElem?_set_eq_of_lt a (lookup_lt ht)

theorem lookup_set_ne {l : List Thread} {i j : Nat} (a : Thread) (h : j ≠ i) :
    (l.set i a)[j]? = l[j]? :=
  List.getElem?_set_ne (fun hij => h hij.symm)

theorem lookup_set_cases {l : List Thread} {i j : Nat} {a u : Thread}
    (h : (l.set i a)[j]? = some u) : (j = i ∧ u = a) ∨ (j ≠ i ∧ l[j]? = some u) := by
  by_cases hji : j = i
  · subst hji
    have hlen : j < l.length := by
      have := lookup_lt h
      simpa using this
    rw [List.getElem?_set_eq_of_lt a hlen] at h
    exact Or.inl ⟨rfl, (Option.some.injEq _ _ ▸ h).symm⟩
  · exact Or.inr ⟨hji, by rwa [lookup_set_ne a hji] at h⟩

theorem wake_panics (t : Thread) : (wake t).panics = t.panics := by
  unfold wake; split <;> rfl

theorem wake_force (t : Thread) : (wake t).force = t.force := by
  unfold wake; split <;> rfl

theorem wake_invoked (t : Thread) : (wake t).invoked = t.invoked := by
  unfold wake; split <;> rfl

theorem wake_of_ne_parked {t : Thread} (h : t.phase ≠ Phase.parked) : wake t = t := by
  unfold wake; simp [h]

theorem lookup_wakeset_cases {l : List Thread} {i j : Nat} {a u : Thread}
    (h : ((l.map wake).set i a)[j]? = some u) :
    (j = i ∧ u = a) ∨ (j ≠ i ∧ ∃ v, l[j]? = some v ∧ u = wake v) := by
  rcases lookup_set_cases h with ⟨hji, hu⟩ | ⟨hji, hu⟩
  · exact Or.inl ⟨hji, hu⟩
  · rw [List.getElem?_map] at hu
    rcases Option.map_eq_some'.mp hu with ⟨v, hv, huv⟩
    exact Or.inr ⟨hji, v, hv, huv.symm⟩

/-! ### Bit arithmetic over the status byte (all values involved are `< 16`) -/

theorem acq_mask_lt : ∀ s < 16, (s ||| LOCKED_BIT) &&& (255 ^^^ POISON_BIT) < 16 := by decide

theorem acq_mask_done : ∀ s < 16, s &&& DONE_BIT = 0 →
    ((s ||| LOCKED_BIT) &&& (255 ^^^ POISON_BIT)) &&& DONE_BIT = 0 := by decide

theorem acq_mask_poison : ∀ s < 16,
    ((s ||| LOCKED_BIT) &&& (255 ^^^ POISON_BIT)) &&& POISON_BIT = 0 := by decide

theorem acq_mask_locked : ∀ s < 16,
    ((s ||| LOCKED_BIT) &&& (255 ^^^ POISON_BIT)) &&& LOCKED_BIT ≠ 0 := by decide

theorem park_mask_lt : ∀ s < 16, s ||| PARKED_BIT < 16 := by decide

theorem park_mask_done : ∀ s < 16, (s ||| PARKED_BIT) &&& DONE_BIT = s &&& DONE_BIT := by
  decide

theorem park_mask_poison : ∀ s < 16,
    (s ||| PARKED_BIT) &&& POISON_BIT = s &&& POISON_BIT := by decide

theorem park_mask_locked : ∀ s < 16,
    (s ||| PARKED_BIT) &&& LOCKED_BIT = s &&& LOCKED_BIT := by decide

theorem done_bit_exact : ∀ s < 16, s &&& DONE_BIT ≠ 0 → fastPathHit s = true → s = 1 := by
  decide

theorem fastPathHit_eq_one {s : Nat} (h : fastPathHit s = true) : s = 1 := by
  have h2 : (s == DONE_BIT) = true := h
  rw [beq_iff_eq] at h2
  simpa [DONE_BIT] using h2

/-! ### Localized steps: the same transitions, known to be taken by thread `i` -/

/-- `StepAt g i t g'`: thread `i`, currently `t`, performs one step from `g`
to `g'`.  Constructors mirror `OnceStep` exactly. -/
inductive StepAt (g : GState) (i : Nat) (t : Thread) : GState → Prop where
  | fastHit (hp : t.phase = Phase.fastLoad) (hs : fastPathHit g.status = true) :
      StepAt g i t ⟨g.status, g.threads.set i { t with phase := Phase.retDone }⟩
  | fastMiss (hp : t.phase = Phase.fastLoad) (hs : fastPathHit g.status = false) :
      StepAt g i t ⟨g.status, g.threads.set i { t with phase := Phase.loopLoad }⟩
  | loadSnap (hp : t.phase = Phase.loopLoad) :
      StepAt g i t ⟨g.status, g.threads.set i { t with phase := Phase.loopBody g.status }⟩
  | bodyDone (s : Nat) (hp : t.phase = Phase.loopBody s) (hd : s &&& DONE_BIT ≠ 0) :
      StepAt g i t ⟨g.status, g.threads.set i { t with phase := Phase.retDone }⟩
  | bodyPoison (s : Nat) (hp : t.phase = Phase.loopBody s)
      (hd : s &&& DONE_BIT = 0) (hps : s &&& POISON_BIT ≠ 0) (hf : t.force = false) :
      StepAt g i t ⟨g.status, g.threads.set i { t with phase := Phase.retPanic }⟩
  | acqOk (s : Nat) (hp : t.phase = Phase.loopBody s)
      (hd : s &&& DONE_BIT = 0) (hps : s &&& POISON_BIT = 0 ∨ t.force = true)
      (hl : s &&& LOCKED_BIT = 0) (he : g.status = s) :
      StepAt g i t ⟨(s ||| LOCKED_BIT) &&& (255 ^^^ POISON_BIT),
        g.threads.set i { t with phase := Phase.running ⟨s &&& POISON_BIT != 0⟩ }⟩
  | acqFail (s : Nat) (hp : t.phase = Phase.loopBody s)
      (hd : s &&& DONE_BIT = 0) (hps : s &&& POISON_BIT = 0 ∨ t.force = true)
      (hl : s &&& LOCKED_BIT = 0) :
      StepAt g i t ⟨g.status, g.threads.set i { t with phase := Phase.loopBody g.status }⟩
  | spinRetry (s : Nat) (hp : t.phase = Phase.loopBody s)
      (hd : s &&& DONE_BIT = 0) (hps : s &&& POISON_BIT = 0 ∨ t.force = true)
      (hl : s &&& LOCKED_BIT ≠ 0) (hpk : s &&& PARKED_BIT = 0) :
      StepAt g i t ⟨g.status, g.threads.set i { t with phase := Phase.loopLoad }⟩
  | parkCasOk (s : Nat) (hp : t.phase = Phase.loopBody s)
      (hd : s &&& DONE_BIT = 0) (hps : s &&& POISON_BIT = 0 ∨ t.force = true)
      (hl : s &&& LOCKED_BIT ≠ 0) (hpk : s &&& PARKED_BIT = 0) (he : g.status = s) :
      StepAt g i t ⟨s ||| PARKED_BIT, g.threads.set i { t with phase := Phase.tryPark }⟩
  | parkCasFail (s : Nat) (hp : t.phase = Phase.loopBody s)
      (hd : s &&& DONE_BIT = 0) (hps : s &&& POISON_BIT = 0 ∨ t.force = true)
      (hl : s &&& LOCKED_BIT ≠ 0) (hpk : s &&& PARKED_BIT = 0) :
      StepAt g i t ⟨g.status, g.threads.set i { t with phase := Phase.loopBody g.status }⟩
  | toPark (s : Nat) (hp : t.phase = Phase.loopBody s)
      (hd : s &&& DONE_BIT = 0) (hps : s &&& POISON_BIT = 0 ∨ t.force = true)
      (hl : s &&& LOCKED_BIT ≠ 0) (hpk : s &&& PARKED_BIT ≠ 0) :
      StepAt g i t ⟨g.status, g.threads.set i { t with phase := Phase.tryPark }⟩
  | parkEnq (hp : t.phase = Phase.tryPark) (hv : g.status = LOCKED_BIT ||| PARKED_BIT) :
      StepAt g i t ⟨g.status, g.threads.set i { t with phase := Phase.parked }⟩
  | parkAbort (hp : t.phase = Phase.tryPark) (hv : g.status ≠ LOCKED_BIT ||| PARKED_BIT) :
      StepAt g i t ⟨g.status, g.threads.set i { t with phase := Phase.loopLoad }⟩
  | invoke (st : OnceState) (hp : t.phase = Phase.running st) :
      StepAt g i t ⟨g.status,
        g.threads.set i { t with
          phase := if t.panics then Phase.unwindSwap else Phase.doneSwap,
          invoked := t.invoked + 1 }⟩
  | poisonSwap (hp : t.phase = Phase.unwindSwap) :
      StepAt g i t ⟨POISON_BIT,
        g.threads.set i { t with phase := Phase.unparkOp true (g.status &&& PARKED_BIT != 0) }⟩
  | completeSwap (hp : t.phase = Phase.doneSwap) :
      StepAt g i t ⟨DONE_BIT,
        g.threads.set i { t with phase := Phase.unparkOp false (g.status &&& PARKED_BIT != 0) }⟩
  | unparkRun (pk need : Bool) (hp : t.phase = Phase.unparkOp pk need) :
      StepAt g i t ⟨g.status,
        (if need then g.threads.map wake else g.threads).set i
          { t with phase := if pk then Phase.retPanic else Phase.retDone }⟩

/-- If a step changes the entry of a non-parked thread `i`, that step was
performed by thread `i` itself. -/
theorem step_localize {g g' : GState} {i : Nat} {t : Thread}
    (hstep : OnceStep g g') (ht : g.threads[i]? = some t)
    (hnpk : t.phase ≠ Phase.parked) (hmoved : g'.threads[i]? ≠ some t) :
    StepAt g i t g' := by
  cases hstep with
  | fastHit j u htj hp hs =>
    by_cases hij : i = j
    · subst hij
      cases (Option.some.injEq _ _ ▸ ht.symm.trans htj)
      exact StepAt.fastHit hp hs
    · exact absurd (by rw [lookup_set_ne _ hij]; exact ht) hmoved
  | fastMiss j u htj hp hs =>
    by_cases hij : i = j
    · subst hij
      cases (Option.some.injEq _ _ ▸ ht.symm.trans htj)
      exact StepAt.fastMiss hp hs
    · exact absurd (by rw [lookup_set_ne _ hij]; exact ht) hmoved
  | loadSnap j u htj hp =>
    by_cases hij : i = j
    · subst hij
      cases (Option.some.injEq _ _ ▸ ht.symm.trans htj)
      exact StepAt.loadSnap hp
    · exact absurd (by rw [lookup_set_ne _ hij]; exact ht) hmoved
  | bodyDone j u s htj hp hd =>
    by_cases hij : i = j
    · subst hij
      cases (Option.some.injEq _ _ ▸ ht.symm.trans htj)
      exact StepAt.bodyDone s hp hd
    · exact absurd (by rw [lookup_set_ne _ hij]; exact ht) hmoved
  | bodyPoison j u s htj hp hd hps hf =>
    by_cases hij : i = j
    · subst hij
      cases (Option.some.injEq _ _ ▸ ht.symm.trans htj)
      exact StepAt.bodyPoison s hp hd hps hf
    · exact absurd (by rw [lookup_set_ne _ hij]; exact ht) hmoved
  | acqOk j u s htj hp hd hps hl he =>
    by_cases hij : i = j
    · subst hij
      cases (Option.some.injEq _ _ ▸ ht.symm.trans htj)
      exact StepAt.acqOk s hp hd hps hl he
    · exact absurd (by rw [lookup_set_ne _ hij]; exact ht) hmoved
  | acqFail j u s htj hp hd hps hl =>
    by_cases hij : i = j
    · subst hij
      cases (Option.some.injEq _ _ ▸ ht.symm.trans htj)
      exact StepAt.acqFail s hp hd hps hl
    · exact absurd (by rw [lookup_set_ne _ hij]; exact ht) hmoved
  | spinRetry j u s htj hp hd hps hl hpk =>
    by_cases hij : i = j
    · subst hij
      cases (Option.some.injEq _ _ ▸ ht.symm.trans htj)
      exact StepAt.spinRetry s hp hd hps hl hpk
    · exact absurd (by rw [lookup_set_ne _ hij]; exact ht) hmoved
  | parkCasOk j u s htj hp hd hps hl hpk he =>
    by_cases hij : i = j
    · subst hij
      cases (Option.some.injEq _ _ ▸ ht.symm.trans htj)
      exact StepAt.parkCasOk s hp hd hps hl hpk he
    · exact absurd (by rw [lookup_set_ne _ hij]; exact ht) hmoved
  | parkCasFail j u s htj hp hd hps hl hpk =>
    by_cases hij : i = j
    · subst hij
      cases (Option.some.injEq _ _ ▸ ht.symm.trans htj)
      exact StepAt.parkCasFail s hp hd hps hl hpk
    · exact absurd (by rw [lookup_set_ne _ hij]; exact ht) hmoved
  | toPark j u s htj hp hd hps hl hpk =>
    by_cases hij : i = j
    · subst hij
      cases (Option.some.injEq _ _ ▸ ht.symm.trans htj)
      exact StepAt.toPark s hp hd hps hl hpk
    · exact absurd (by rw [lookup_set_ne _ hij]; exact ht) hmoved
  | parkEnq j u htj hp hv =>
    by_cases hij : i = j
    · subst hij
      cases (Option.some.injEq _ _ ▸ ht.symm.trans htj)
      exact StepAt.parkEnq hp hv
    · exact absurd (by rw [lookup_set_ne _ hij]; exact ht) hmoved
  | parkAbort j u htj hp hv =>
    by_cases hij : i = j
    · subst hij
      cases (Option.some.injEq _ _ ▸ ht.symm.trans htj)
      exact StepAt.parkAbort hp hv
    · exact absurd (by rw [lookup_set_ne _ hij]; exact ht) hmoved
  | invoke j u st htj hp =>
    by_cases hij : i = j
    · subst hij
      cases (Option.some.injEq _ _ ▸ ht.symm.trans htj)
      exact StepAt.invoke st hp
    · exact absurd (by rw [lookup_set_ne _ hij]; exact ht) hmoved
  | poisonSwap j u htj hp =>
    by_cases hij : i = j
    · subst hij
      cases (Option.some.injEq _ _ ▸ ht.symm.trans htj)
      exact StepAt.poisonSwap hp
    · exact absurd (by rw [lookup_set_ne _ hij]; exact ht) hmoved
  | completeSwap j u htj hp =>
    by_cases hij : i = j
    · subst hij
      cases (Option.some.injEq _ _ ▸ ht.symm.trans htj)
      exact StepAt.completeSwap hp
    · exact absurd (by rw [lookup_set_ne _ hij]; exact ht) hmoved
  | unparkRun j u pk need htj hp =>
    by_cases hij : i = j
    · subst hij
      cases (Option.some.injEq _ _ ▸ ht.symm.trans htj)
      exact StepAt.unparkRun pk need hp
    · refine absurd ?_ hmoved
      rw [lookup_set_ne _ hij]
      cases need with
      | true =>
        simp only [if_pos]
        rw [List.getElem?_map, ht]
        simp [wake_of_ne_parked hnpk]
      | false => simpa using ht

/-! ### Phase classification -/

/-- Phases in which the thread holds the `LOCKED_BIT` lock (from the
successful acquiring compare-exchange up to the releasing swap). -/
def isHolder : Phase → Bool
  | Phase.running _ => true
  | Phase.unwindSwap => true
  | Phase.doneSwap => true
  | _ => false

/-- Phases before the closure invocation. -/
def isPre : Phase → Bool
  | Phase.fastLoad => true
  | Phase.loopLoad => true
  | Phase.loopBody _ => true
  | Phase.tryPark => true
  | Phase.parked => true
  | Phase.running _ => true
  | _ => false

/-- Phases strictly between the closure invocation and the return. -/
def isMid : Phase → Bool
  | Phase.unwindSwap => true
  | Phase.doneSwap => true
  | Phase.unparkOp _ _ => true
  | _ => false

/-- No caller has a panicking closure. -/
def noPanic (l : List Thread) : Prop :=
  ∀ (j : Nat) (t : Thread), l[j]? = some t → t.panics = false

theorem noPanic_set_back {l : List Thread} {i : Nat} {t a : Thread}
    (ht : l[i]? = some t) (h : noPanic (l.set i a))
    (hpa : a.panics = t.panics) : noPanic l := by
  intro j u hu
  by_cases hji : j = i
  · subst hji
    cases (Option.some.injEq _ _ ▸ ht.symm.trans hu)
    have := h j a (lookup_set_self ht)
    rw [hpa] at this
    exact this
  · exact h j u (by rw [lookup_set_ne a hji]; exact hu)

theorem noPanic_wakeset_back {l : List Thread} {i : Nat} {t a : Thread}
    (ht : l[i]? = some t) (h : noPanic ((l.map wake).set i a))
    (hpa : a.panics = t.panics) : noPanic l := by
  intro j u hu
  by_cases hji : j = i
  · subst hji
    cases (Option.some.injEq _ _ ▸ ht.symm.trans hu)
    have := h j a (lookup_set_self
      (show (l.map wake)[j]? = some (wake t) by rw [List.getElem?_map, ht]; rfl))
    rw [hpa] at this
    exact this
  · have := h j (wake u) (by
      rw [lookup_set_ne a hji, List.getElem?_map, hu]; rfl)
    rw [wake_panics] at this
    exact this

/-- `u` is `v` possibly after an `unpark_all` wake. -/
def wakeEq (v u : Thread) : Prop :=
  u = v ∨ (v.phase = Phase.parked ∧ u = { v with phase := Phase.loopLoad })

theorem wakeEq_wake (v : Thread) : wakeEq v (wake v) := by
  unfold wake
  by_cases h : v.phase = Phase.parked
  · exact Or.inr ⟨h, by simp [h]⟩
  · exact Or.inl (by simp [h])

theorem wakeEq_panics {v u : Thread} (h : wakeEq v u) : u.panics = v.panics := by
  rcases h with h | ⟨_, h⟩ <;> subst h <;> rfl

theorem wakeEq_force {v u : Thread} (h : wakeEq v u) : u.force = v.force := by
  rcases h with h | ⟨_, h⟩ <;> subst h <;> rfl

theorem wakeEq_invoked {v u : Thread} (h : wakeEq v u) : u.invoked = v.invoked := by
  rcases h with h | ⟨_, h⟩ <;> subst h <;> rfl

theorem wakeEq_phase {v u : Thread} (h : wakeEq v u) :
    u.phase = v.phase ∨ (v.phase = Phase.parked ∧ u.phase = Phase.loopLoad) := by
  rcases h with h | ⟨hv, h⟩
  · exact Or.inl (by rw [h])
  · exact Or.inr ⟨hv, by rw [h]⟩

/-- Lookup in the thread list produced by an `unparkRun` step. -/
theorem lookup_unpark_cases {l : List Thread} {b : Bool} {i j : Nat} {a u : Thread}
    (h : ((if b then l.map wake else l).set i a)[j]? = some u) :
    (j = i ∧ u = a) ∨ (j ≠ i ∧ ∃ v, l[j]? = some v ∧ wakeEq v u) := by
  cases b with
  | true =>
    rcases lookup_wakeset_cases (by simpa using h) with ⟨hji, hu⟩ | ⟨hji, v, hv, hu⟩
    · exact Or.inl ⟨hji, hu⟩
    · exact Or.inr ⟨hji, v, hv, hu ▸ wakeEq_wake v⟩
  | false =>
    rcases lookup_set_cases (by simpa using h) with ⟨hji, hu⟩ | ⟨hji, hu⟩
    · exact Or.inl ⟨hji, hu⟩
    · exact Or.inr ⟨hji, u, hu, Or.inl rfl⟩

/-! ### The global invariant -/

/-- Invariant of every reachable state of the primitive. -/
structure Inv (g : GState) : Prop where
  /-- The status byte only ever holds the four flag bits. -/
  status_lt : g.status < 16
  /-- A loop snapshot showing `DONE_BIT` was read from a status that had it,
  and `DONE_BIT`, once set, persists. -/
  snap_done : ∀ (i : Nat) (t : Thread) (s : Nat), g.threads[i]? = some t → t.phase = Phase.loopBody s →
    s &&& DONE_BIT ≠ 0 → g.status &&& DONE_BIT ≠ 0
  /-- A normally-returned call has observed `DONE_BIT`, which persists. -/
  ret_done : ∀ (i : Nat) (t : Thread), g.threads[i]? = some t → t.phase = Phase.retDone →
    g.status &&& DONE_BIT ≠ 0
  /-- Past the `DONE` swap, `DONE_BIT` is set. -/
  unp_done : ∀ (i : Nat) (t : Thread) (need : Bool), g.threads[i]? = some t →
    t.phase = Phase.unparkOp false need → g.status &&& DONE_BIT ≠ 0
  /-- Mutual exclusion: at most one thread holds the lock. -/
  hold_excl : ∀ (i j : Nat) (t u : Thread), i ≠ j → g.threads[i]? = some t → g.threads[j]? = some u →
    isHolder t.phase = true → isHolder u.phase = true → False
  /-- A lock holder implies `LOCKED_BIT` is set. -/
  hold_locked : ∀ (i : Nat) (t : Thread), g.threads[i]? = some t → isHolder t.phase = true →
    g.status &&& LOCKED_BIT ≠ 0
  /-- While the lock is held, `DONE_BIT` and `POISON_BIT` are clear. -/
  hold_clean : ∀ (i : Nat) (t : Thread), g.threads[i]? = some t → isHolder t.phase = true →
    g.status &&& DONE_BIT = 0 ∧ g.status &&& POISON_BIT = 0
  /-- When `DONE_BIT` is set the status is exactly `DONE_BIT`. -/
  done_exact : g.status &&& DONE_BIT ≠ 0 → g.status = DONE_BIT
  /-- Before its closure invocation a thread's invocation count is `0`. -/
  pre_zero : ∀ (i : Nat) (t : Thread), g.threads[i]? = some t → isPre t.phase = true → t.invoked = 0
  /-- Between invocation and return it is exactly `1`. -/
  mid_one : ∀ (i : Nat) (t : Thread), g.threads[i]? = some t → isMid t.phase = true → t.invoked = 1
  /-- No thread ever invokes its closure more than once. -/
  inv_le : ∀ (i : Nat) (t : Thread), g.threads[i]? = some t → t.invoked ≤ 1
  /-- Only a panicking closure puts its thread at the poison swap. -/
  unwind_panics : ∀ (i : Nat) (t : Thread), g.threads[i]? = some t → t.phase = Phase.unwindSwap →
    t.panics = true
  /-- A `call_once_force` caller whose closure does not panic never panics
  and never reaches the poisoning path. -/
  force_ok : ∀ (i : Nat) (t : Thread), g.threads[i]? = some t → t.force = true → t.panics = false →
    t.phase ≠ Phase.retPanic ∧ t.phase ≠ Phase.unwindSwap ∧
      ∀ nd, t.phase ≠ Phase.unparkOp true nd
  /-- In panic-free runs, before `DONE_BIT` is set the only thread that may
  have invoked its closure is the one at the `DONE` swap. -/
  count_clear : noPanic g.threads → g.status &&& DONE_BIT = 0 →
    ∀ (i : Nat) (t : Thread), g.threads[i]? = some t → t.invoked ≠ 0 → t.phase = Phase.doneSwap
  /-- In panic-free runs, once `DONE_BIT` is set exactly one thread has
  invoked its closure (exactly once). -/
  count_set : noPanic g.threads → g.status &&& DONE_BIT ≠ 0 →
    ∃ (i : Nat) (t : Thread), g.threads[i]? = some t ∧ t.invoked = 1 ∧
      ∀ (j : Nat) (u : Thread), g.threads[j]? = some u → j ≠ i → u.invoked = 0

theorem inv_init (ps : List (Bool × Bool)) : Inv (initG ps) := by
  have hlook : ∀ (i : Nat) (t : Thread), (initG ps).threads[i]? = some t →
      t.phase = Phase.fastLoad ∧ t.invoked = 0 := by
    intro i t ht
    simp only [initG, initThreads, List.getElem?_map] at ht
    rcases Option.map_eq_some'.mp ht with ⟨p, _, hp⟩
    constructor <;> rw [← hp]
  refine ⟨?_, ?_, ?_, ?_, ?_, ?_, ?_, ?_, ?_, ?_, ?_, ?_, ?_, ?_, ?_⟩
  · show (0 : Nat) < 16
    decide
  · intro i t s ht hp
    rw [(hlook i t ht).1] at hp
    cases hp
  · intro i t ht hp
    rw [(hlook i t ht).1] at hp
    cases hp
  · intro i t need ht hp
    rw [(hlook i t ht).1] at hp
    cases hp
  · intro i j t u _ ht _ hh _
    rw [(hlook i t ht).1] at hh
    cases hh
  · intro i t ht hh
    rw [(hlook i t ht).1] at hh
    cases hh
  · intro i t ht hh
    rw [(hlook i t ht).1] at hh
    cases hh
  · intro h
    exact absurd (by decide : (0 : Nat) &&& DONE_BIT = 0) h
  · intro i t ht _
    exact (hlook i t ht).2
  · intro i t ht hh
    rw [(hlook i t ht).1] at hh
    cases hh
  · intro i t ht
    rw [(hlook i t ht).2]
    exact Nat.zero_le 1
  · intro i t ht hp
    rw [(hlook i t ht).1] at hp
    cases hp
  · intro i t ht _ _
    rw [(hlook i t ht).1]
    refine ⟨?_, ?_, ?_⟩
    · intro h
      cases h
    · intro h
      cases h
    · intro nd h
      cases h
  · intro _ _ i t ht hi
    exact absurd (hlook i t ht).2 hi
  · intro _ hd
    exact absurd (by decide : (0 : Nat) &&& DONE_BIT = 0) hd

theorem bool_clash {b : Bool} (h1 : b = true) (h2 : b = false) : False := by
  rw [h2] at h1
  cases h1

/-- Preservation of the invariant under a step that keeps the status,
moves one non-lock-holding thread `i` from `t` to `t'`, and keeps its
parameters and invocation count. -/
theorem inv_step_simple {g : GState} {i : Nat} {t t' : Thread}
    (hInv : Inv g) (ht : g.threads[i]? = some t)
    (hforce : t'.force = t.force) (hpanics : t'.panics = t.panics)
    (hinvk : t'.invoked = t.invoked)
    (hholdt : isHolder t.phase = false) (hhold : isHolder t'.phase = false)
    (hsnap : ∀ s : Nat, t'.phase = Phase.loopBody s → s &&& DONE_BIT ≠ 0 →
      g.status &&& DONE_BIT ≠ 0)
    (hret : t'.phase = Phase.retDone → g.status &&& DONE_BIT ≠ 0)
    (hmid : isMid t'.phase = false)
    (hpre0 : isPre t'.phase = true → t.invoked = 0)
    (hpanic_ok : t'.phase = Phase.retPanic → t.force = false ∨ t.panics = true) :
    Inv ⟨g.status, g.threads.set i t'⟩ := by
  refine ⟨hInv.status_lt, ?_, ?_, ?_, ?_, ?_, ?_, hInv.done_exact, ?_, ?_, ?_, ?_, ?_, ?_, ?_⟩
  · intro j u s hu hp hd
    rcases lookup_set_cases hu with ⟨hji, rfl⟩ | ⟨hji, hu2⟩
    · exact hsnap s hp hd
    · exact hInv.snap_done j u s hu2 hp hd
  · intro j u hu hp
    rcases lookup_set_cases hu with ⟨hji, rfl⟩ | ⟨hji, hu2⟩
    · exact hret hp
    · exact hInv.ret_done j u hu2 hp
  · intro j u need hu hp
    rcases lookup_set_cases hu with ⟨hji, rfl⟩ | ⟨hji, hu2⟩
    · exact absurd (by rw [hp] : isMid u.phase = isMid (Phase.unparkOp false need))
        (by rw [hmid]; intro h; cases h)
    · exact hInv.unp_done j u need hu2 hp
  · intro j k u v hjk hu hv hhu hhv
    rcases lookup_set_cases hu with ⟨hji, rfl⟩ | ⟨hji, hu2⟩
    · exact bool_clash hhu hhold
    · rcases lookup_set_cases hv with ⟨hki, rfl⟩ | ⟨hki, hv2⟩
      · exact bool_clash hhv hhold
      · exact hInv.hold_excl j k u v hjk hu2 hv2 hhu hhv
  · intro j u hu hhu
    rcases lookup_set_cases hu with ⟨hji, rfl⟩ | ⟨hji, hu2⟩
    · exact absurd hhu (by rw [hhold]; intro h; cases h)
    · exact hInv.hold_locked j u hu2 hhu
  · intro j u hu hhu
    rcases lookup_set_cases hu with ⟨hji, rfl⟩ | ⟨hji, hu2⟩
    · exact absurd hhu (by rw [hhold]; intro h; cases h)
    · exact hInv.hold_clean j u hu2 hhu
  · intro j u hu hp
    rcases lookup_set_cases hu with ⟨hji, rfl⟩ | ⟨hji, hu2⟩
    · rw [hinvk]
      exact hpre0 hp
    · exact hInv.pre_zero j u hu2 hp
  · intro j u hu hp
    rcases lookup_set_cases hu with ⟨hji, rfl⟩ | ⟨hji, hu2⟩
    · exact absurd hp (by rw [hmid]; intro h; cases h)
    · exact hInv.mid_one j u hu2 hp
  · intro j u hu
    rcases lookup_set_cases hu with ⟨hji, rfl⟩ | ⟨hji, hu2⟩
    · rw [hinvk]
      exact hInv.inv_le i t ht
    · exact hInv.inv_le j u hu2
  · intro j u hu hp
    rcases lookup_set_cases hu with ⟨hji, rfl⟩ | ⟨hji, hu2⟩
    · exact absurd (by rw [hp] : isMid u.phase = isMid Phase.unwindSwap)
        (by rw [hmid]; intro h; cases h)
    · exact hInv.unwind_panics j u hu2 hp
  · intro j u hu hf hpn
    rcases lookup_set_cases hu with ⟨hji, rfl⟩ | ⟨hji, hu2⟩
    · refine ⟨?_, ?_, ?_⟩
      · intro hp
        rcases hpanic_ok hp with hc | hc
        · rw [hc] at hforce
          rw [hf] at hforce
          cases hforce
        · rw [hc] at hpanics
          rw [hpn] at hpanics
          cases hpanics
      · intro hp
        exact absurd (by rw [hp] : isMid u.phase = isMid Phase.unwindSwap)
          (by rw [hmid]; intro h; cases h)
      · intro nd hp
        exact absurd (by rw [hp] : isMid u.phase = isMid (Phase.unparkOp true nd))
          (by rw [hmid]; intro h; cases h)
    · exact hInv.force_ok j u hu2 hf hpn
  · intro np hd j u hu hi0
    have np0 : noPanic g.threads := noPanic_set_back ht np hpanics
    rcases lookup_set_cases hu with ⟨hji, rfl⟩ | ⟨hji, hu2⟩
    · rw [hinvk] at hi0
      have hds := hInv.count_clear np0 hd i t ht hi0
      exact absurd (by rw [hds] : isHolder t.phase = isHolder Phase.doneSwap)
        (by rw [hholdt]; intro h; cases h)
    · exact hInv.count_clear np0 hd j u hu2 hi0
  · intro np hd
    have np0 : noPanic g.threads := noPanic_set_back ht np hpanics
    obtain ⟨w, tw, hw, h1, h0⟩ := hInv.count_set np0 hd
    by_cases hwi : w = i
    · subst hwi
      cases (Option.some.injEq _ _ ▸ ht.symm.trans hw)
      refine ⟨w, t', lookup_set_self ht, by rw [hinvk]; exact h1, ?_⟩
      intro j u hu hjw
      rcases lookup_set_cases hu with ⟨hji, rfl⟩ | ⟨hji, hu2⟩
      · exact absurd hji hjw
      · exact h0 j u hu2 hjw
    · refine ⟨w, tw, by rw [lookup_set_ne t' hwi]; exact hw, h1, ?_⟩
      intro j u hu hjw
      rcases lookup_set_cases hu with ⟨hji, rfl⟩ | ⟨hji, hu2⟩
      · rw [hinvk]
        exact h0 i t ht (fun h => hwi h.symm)
      · exact h0 j u hu2 hjw

theorem noPanic_unpark_back {l : List Thread} {i : Nat} {t a : Thread} {b : Bool}
    (ht : l[i]? = some t) (h : noPanic ((if b then l.map wake else l).set i a))
    (hpa : a.panics = t.panics) : noPanic l := by
  cases b with
  | true => exact noPanic_wakeset_back ht (by simpa using h) hpa
  | false => exact noPanic_set_back ht (by simpa using h) hpa

theorem lookup_unpark_self {l : List Thread} {i : Nat} {t a : Thread} {b : Bool}
    (ht : l[i]? = some t) : ((if b then l.map wake else l).set i a)[i]? = some a := by
  cases b with
  | true =>
    simp only [if_pos]
    exact lookup_set_self
      (show (l.map wake)[i]? = some (wake t) by rw [List.getElem?_map, ht]; rfl)
  | false => simpa using lookup_set_self ht

/-- Invariant preservation for the successful lock-acquiring
compare-exchange. -/
theorem inv_step_acqOk {g : GState} {i : Nat} {t : Thread} {s : Nat}
    (hInv : Inv g) (ht : g.threads[i]? = some t) (hp : t.phase = Phase.loopBody s)
    (hd : s &&& DONE_BIT = 0) (hl : s &&& LOCKED_BIT = 0) (he : g.status = s) :
    Inv ⟨(s ||| LOCKED_BIT) &&& (255 ^^^ POISON_BIT),
      g.threads.set i { t with phase := Phase.running ⟨s &&& POISON_BIT != 0⟩ }⟩ := by
  have hs16 : s < 16 := he ▸ hInv.status_lt
  have hdone := acq_mask_done s hs16 hd
  have hpois := acq_mask_poison s hs16
  have hlck := acq_mask_locked s hs16
  have hnohold : ∀ (j : Nat) (u : Thread), g.threads[j]? = some u →
      isHolder u.phase = false := by
    intro j u hu
    cases hh : isHolder u.phase with
    | false => rfl
    | true =>
      have := hInv.hold_locked j u hu hh
      rw [he] at this
      exact absurd hl this
  refine ⟨acq_mask_lt s hs16, ?_, ?_, ?_, ?_, ?_, ?_, ?_, ?_, ?_, ?_, ?_, ?_, ?_, ?_⟩
  · intro j u s2 hu hpu hd2
    rcases lookup_set_cases hu with ⟨hji, rfl⟩ | ⟨hji, hu2⟩
    · cases hpu
    · have := hInv.snap_done j u s2 hu2 hpu hd2
      rw [he] at this
      exact absurd hd this
  · intro j u hu hpu
    rcases lookup_set_cases hu with ⟨hji, rfl⟩ | ⟨hji, hu2⟩
    · cases hpu
    · have := hInv.ret_done j u hu2 hpu
      rw [he] at this
      exact absurd hd this
  · intro j u need hu hpu
    rcases lookup_set_cases hu with ⟨hji, rfl⟩ | ⟨hji, hu2⟩
    · cases hpu
    · have := hInv.unp_done j u need hu2 hpu
      rw [he] at this
      exact absurd hd this
  · intro j k u v hjk hu hv hhu hhv
    rcases lookup_set_cases hu with ⟨hji, rfl⟩ | ⟨hji, hu2⟩
    · rcases lookup_set_cases hv with ⟨hki, rfl⟩ | ⟨hki, hv2⟩
      · subst hji hki
        exact absurd rfl hjk
      · exact bool_clash hhv (hnohold k v hv2)
    · exact bool_clash hhu (hnohold j u hu2)
  · intro j u hu hhu
    rcases lookup_set_cases hu with ⟨hji, rfl⟩ | ⟨hji, hu2⟩
    · exact hlck
    · exact (bool_clash hhu (hnohold j u hu2)).elim
  · intro j u hu hhu
    rcases lookup_set_cases hu with ⟨hji, rfl⟩ | ⟨hji, hu2⟩
    · exact ⟨hdone, hpois⟩
    · exact (bool_clash hhu (hnohold j u hu2)).elim
  · intro h
    exact absurd hdone h
  · intro j u hu hpu
    rcases lookup_set_cases hu with ⟨hji, rfl⟩ | ⟨hji, hu2⟩
    · exact hInv.pre_zero i t ht (by rw [hp]; rfl)
    · exact hInv.pre_zero j u hu2 hpu
  · intro j u hu hpu
    rcases lookup_set_cases hu with ⟨hji, rfl⟩ | ⟨hji, hu2⟩
    · cases hpu
    · exact hInv.mid_one j u hu2 hpu
  · intro j u hu
    rcases lookup_set_cases hu with ⟨hji, rfl⟩ | ⟨hji, hu2⟩
    · exact hInv.inv_le i t ht
    · exact hInv.inv_le j u hu2
  · intro j u hu hpu
    rcases lookup_set_cases hu with ⟨hji, rfl⟩ | ⟨hji, hu2⟩
    · cases hpu
    · exact hInv.unwind_panics j u hu2 hpu
  · intro j u hu hf hpn
    rcases lookup_set_cases hu with ⟨hji, rfl⟩ | ⟨hji, hu2⟩
    · refine ⟨?_, ?_, ?_⟩
      · intro h
        cases h
      · intro h
        cases h
      · intro nd h
        cases h
    · exact hInv.force_ok j u hu2 hf hpn
  · intro np hd2 j u hu hi0
    have np0 : noPanic g.threads := noPanic_set_back ht np rfl
    rcases lookup_set_cases hu with ⟨hji, rfl⟩ | ⟨hji, hu2⟩
    · exact absurd (hInv.pre_zero i t ht (by rw [hp]; rfl)) hi0
    · exact hInv.count_clear np0 (by rw [he]; exact hd) j u hu2 hi0
  · intro np hd2
    exact absurd hdone hd2

/-- Invariant preservation for the successful parked-bit compare-exchange. -/
theorem inv_step_parkCasOk {g : GState} {i : Nat} {t : Thread} {s : Nat}
    (hInv : Inv g) (ht : g.threads[i]? = some t) (hp : t.phase = Phase.loopBody s)
    (hd : s &&& DONE_BIT = 0) (hl : s &&& LOCKED_BIT ≠ 0) (he : g.status = s) :
    Inv ⟨s ||| PARKED_BIT, g.threads.set i { t with phase := Phase.tryPark }⟩ := by
  have hs16 : s < 16 := he ▸ hInv.status_lt
  have pd := park_mask_done s hs16
  have pp := park_mask_poison s hs16
  have pl := park_mask_locked s hs16
  refine ⟨park_mask_lt s hs16, ?_, ?_, ?_, ?_, ?_, ?_, ?_, ?_, ?_, ?_, ?_, ?_, ?_, ?_⟩
  · intro j u s2 hu hpu hd2
    rcases lookup_set_cases hu with ⟨hji, rfl⟩ | ⟨hji, hu2⟩
    · cases hpu
    · have := hInv.snap_done j u s2 hu2 hpu hd2
      rw [he] at this
      exact absurd hd this
  · intro j u hu hpu
    rcases lookup_set_cases hu with ⟨hji, rfl⟩ | ⟨hji, hu2⟩
    · cases hpu
    · have := hInv.ret_done j u hu2 hpu
      rw [he] at this
      exact absurd hd this
  · intro j u need hu hpu
    rcases lookup_set_cases hu with ⟨hji, rfl⟩ | ⟨hji, hu2⟩
    · cases hpu
    · have := hInv.unp_done j u need hu2 hpu
      rw [he] at this
      exact absurd hd this
  · intro j k u v hjk hu hv hhu hhv
    rcases lookup_set_cases hu with ⟨hji, rfl⟩ | ⟨hji, hu2⟩
    · cases hhu
    · rcases lookup_set_cases hv with ⟨hki, rfl⟩ | ⟨hki, hv2⟩
      · cases hhv
      · exact hInv.hold_excl j k u v hjk hu2 hv2 hhu hhv
  · intro j u hu hhu
    rcases lookup_set_cases hu with ⟨hji, rfl⟩ | ⟨hji, hu2⟩
    · cases hhu
    · rw [pl]
      have := hInv.hold_locked j u hu2 hhu
      rw [he] at this
      exact this
  · intro j u hu hhu
    rcases lookup_set_cases hu with ⟨hji, rfl⟩ | ⟨hji, hu2⟩
    · cases hhu
    · have := hInv.hold_clean j u hu2 hhu
      rw [he] at this
      rw [pd, pp]
      exact this
  · intro h
    rw [pd] at h
    exact absurd hd h
  · intro j u hu hpu
    rcases lookup_set_cases hu with ⟨hji, rfl⟩ | ⟨hji, hu2⟩
    · exact hInv.pre_zero i t ht (by rw [hp]; rfl)
    · exact hInv.pre_zero j u hu2 hpu
  · intro j u hu hpu
    rcases lookup_set_cases hu with ⟨hji, rfl⟩ | ⟨hji, hu2⟩
    · cases hpu
    · exact hInv.mid_one j u hu2 hpu
  · intro j u hu
    rcases lookup_set_cases hu with ⟨hji, rfl⟩ | ⟨hji, hu2⟩
    · exact hInv.inv_le i t ht
    · exact hInv.inv_le j u hu2
  · intro j u hu hpu
    rcases lookup_set_cases hu with ⟨hji, rfl⟩ | ⟨hji, hu2⟩
    · cases hpu
    · exact hInv.unwind_panics j u hu2 hpu
  · intro j u hu hf hpn
    rcases lookup_set_cases hu with ⟨hji, rfl⟩ | ⟨hji, hu2⟩
    · refine ⟨?_, ?_, ?_⟩
      · intro h
        cases h
      · intro h
        cases h
      · intro nd h
        cases h
    · exact hInv.force_ok j u hu2 hf hpn
  · intro np hd2 j u hu hi0
    have np0 : noPanic g.threads := noPanic_set_back ht np rfl
    rcases lookup_set_cases hu with ⟨hji, rfl⟩ | ⟨hji, hu2⟩
    · exact absurd (hInv.pre_zero i t ht (by rw [hp]; rfl)) hi0
    · exact hInv.count_clear np0 (by rw [he]; exact hd) j u hu2 hi0
  · intro np hd2
    rw [pd] at hd2
    exact absurd hd hd2

/-- Invariant preservation for a closure invocation that unwinds
(the `PanicGuard` will fire). -/
theorem inv_step_invoke_true {g : GState} {i : Nat} {t : Thread} {st : OnceState}
    (hInv : Inv g) (ht : g.threads[i]? = some t) (hp : t.phase = Phase.running st)
    (hpn : t.panics = true) :
    Inv ⟨g.status, g.threads.set i
      { t with phase := Phase.unwindSwap, invoked := t.invoked + 1 }⟩ := by
  have hhold_t : isHolder t.phase = true := by rw [hp]; rfl
  have hclean := hInv.hold_clean i t ht hhold_t
  have hlock := hInv.hold_locked i t ht hhold_t
  have hpre : t.invoked = 0 := hInv.pre_zero i t ht (by rw [hp]; rfl)
  refine ⟨hInv.status_lt, ?_, ?_, ?_, ?_, ?_, ?_, hInv.done_exact, ?_, ?_, ?_, ?_, ?_, ?_, ?_⟩
  · intro j u s2 hu hpu hd2
    rcases lookup_set_cases hu with ⟨hji, rfl⟩ | ⟨hji, hu2⟩
    · cases hpu
    · exact hInv.snap_done j u s2 hu2 hpu hd2
  · intro j u hu hpu
    rcases lookup_set_cases hu with ⟨hji, rfl⟩ | ⟨hji, hu2⟩
    · cases hpu
    · exact hInv.ret_done j u hu2 hpu
  · intro j u need hu hpu
    rcases lookup_set_cases hu with ⟨hji, rfl⟩ | ⟨hji, hu2⟩
    · cases hpu
    · exact hInv.unp_done j u need hu2 hpu
  · intro j k u v hjk hu hv hhu hhv
    rcases lookup_set_cases hu with ⟨hji, rfl⟩ | ⟨hji, hu2⟩
    · rcases lookup_set_cases hv with ⟨hki, rfl⟩ | ⟨hki, hv2⟩
      · subst hji hki
        exact absurd rfl hjk
      · subst hji
        exact hInv.hold_excl j k t v hjk ht hv2 hhold_t hhv
    · rcases lookup_set_cases hv with ⟨hki, rfl⟩ | ⟨hki, hv2⟩
      · subst hki
        exact hInv.hold_excl j k u t hjk hu2 ht hhu hhold_t
      · exact hInv.hold_excl j k u v hjk hu2 hv2 hhu hhv
  · intro j u hu hhu
    rcases lookup_set_cases hu with ⟨hji, rfl⟩ | ⟨hji, hu2⟩
    · exact hlock
    · exact hInv.hold_locked j u hu2 hhu
  · intro j u hu hhu
    rcases lookup_set_cases hu with ⟨hji, rfl⟩ | ⟨hji, hu2⟩
    · exact hclean
    · exact hInv.hold_clean j u hu2 hhu
  · intro j u hu hpu
    rcases lookup_set_cases hu with ⟨hji, rfl⟩ | ⟨hji, hu2⟩
    · cases hpu
    · exact hInv.pre_zero j u hu2 hpu
  · intro j u hu hpu
    rcases lookup_set_cases hu with ⟨hji, rfl⟩ | ⟨hji, hu2⟩
    · show t.invoked + 1 = 1
      rw [hpre]
    · exact hInv.mid_one j u hu2 hpu
  · intro j u hu
    rcases lookup_set_cases hu with ⟨hji, rfl⟩ | ⟨hji, hu2⟩
    · show t.invoked + 1 ≤ 1
      rw [hpre]
    · exact hInv.inv_le j u hu2
  · intro j u hu hpu
    rcases lookup_set_cases hu with ⟨hji, rfl⟩ | ⟨hji, hu2⟩
    · exact hpn
    · exact hInv.unwind_panics j u hu2 hpu
  · intro j u hu hf hpn2
    rcases lookup_set_cases hu with ⟨hji, rfl⟩ | ⟨hji, hu2⟩
    · exact (bool_clash hpn hpn2).elim
    · exact hInv.force_ok j u hu2 hf hpn2
  · intro np hd2 j u hu hi0
    have hx := np i ({ t with phase := Phase.unwindSwap, invoked := t.invoked + 1 }) (lookup_set_self ht)
    exact (bool_clash hpn hx).elim
  · intro np hd2
    have hx := np i ({ t with phase := Phase.unwindSwap, invoked := t.invoked + 1 }) (lookup_set_self ht)
    exact (bool_clash hpn hx).elim

/-- Invariant preservation for a closure invocation that returns normally
(the guard is disarmed by `mem::forget`). -/
theorem inv_step_invoke_false {g : GState} {i : Nat} {t : Thread} {st : OnceState}
    (hInv : Inv g) (ht : g.threads[i]? = some t) (hp : t.phase = Phase.running st)
    (hpn : t.panics = false) :
    Inv ⟨g.status, g.threads.set i
      { t with phase := Phase.doneSwap, invoked := t.invoked + 1 }⟩ := by
  have hhold_t : isHolder t.phase = true := by rw [hp]; rfl
  have hclean := hInv.hold_clean i t ht hhold_t
  have hlock := hInv.hold_locked i t ht hhold_t
  have hpre : t.invoked = 0 := hInv.pre_zero i t ht (by rw [hp]; rfl)
  refine ⟨hInv.status_lt, ?_, ?_, ?_, ?_, ?_, ?_, hInv.done_exact, ?_, ?_, ?_, ?_, ?_, ?_, ?_⟩
  · intro j u s2 hu hpu hd2
    rcases lookup_set_cases hu with ⟨hji, rfl⟩ | ⟨hji, hu2⟩
    · cases hpu
    · exact hInv.snap_done j u s2 hu2 hpu hd2
  · intro j u hu hpu
    rcases lookup_set_cases hu with ⟨hji, rfl⟩ | ⟨hji, hu2⟩
    · cases hpu
    · exact hInv.ret_done j u hu2 hpu
  · intro j u need hu hpu
    rcases lookup_set_cases hu with ⟨hji, rfl⟩ | ⟨hji, hu2⟩
    · cases hpu
    · exact hInv.unp_done j u need hu2 hpu
  · intro j k u v hjk hu hv hhu hhv
    rcases lookup_set_cases hu with ⟨hji, rfl⟩ | ⟨hji, hu2⟩
    · rcases lookup_set_cases hv with ⟨hki, rfl⟩ | ⟨hki, hv2⟩
      · subst hji hki
        exact absurd rfl hjk
      · subst hji
        exact hInv.hold_excl j k t v hjk ht hv2 hhold_t hhv
    · rcases lookup_set_cases hv with ⟨hki, rfl⟩ | ⟨hki, hv2⟩
      · subst hki
        exact hInv.hold_excl j k u t hjk hu2 ht hhu hhold_t
      · exact hInv.hold_excl j k u v hjk hu2 hv2 hhu hhv
  · intro j u hu hhu
    rcases lookup_set_cases hu with ⟨hji, rfl⟩ | ⟨hji, hu2⟩
    · exact hlock
    · exact hInv.hold_locked j u hu2 hhu
  · intro j u hu hhu
    rcases lookup_set_cases hu with ⟨hji, rfl⟩ | ⟨hji, hu2⟩
    · exact hclean
    · exact hInv.hold_clean j u hu2 hhu
  · intro j u hu hpu
    rcases lookup_set_cases hu with ⟨hji, rfl⟩ | ⟨hji, hu2⟩
    · cases hpu
    · exact hInv.pre_zero j u hu2 hpu
  · intro j u hu hpu
    rcases lookup_set_cases hu with ⟨hji, rfl⟩ | ⟨hji, hu2⟩
    · show t.invoked + 1 = 1
      rw [hpre]
    · exact hInv.mid_one j u hu2 hpu
  · intro j u hu
    rcases lookup_set_cases hu with ⟨hji, rfl⟩ | ⟨hji, hu2⟩
    · show t.invoked + 1 ≤ 1
      rw [hpre]
    · exact hInv.inv_le j u hu2
  · intro j u hu hpu
    rcases lookup_set_cases hu with ⟨hji, rfl⟩ | ⟨hji, hu2⟩
    · cases hpu
    · exact hInv.unwind_panics j u hu2 hpu
  · intro j u hu hf hpn2
    rcases lookup_set_cases hu with ⟨hji, rfl⟩ | ⟨hji, hu2⟩
    · refine ⟨?_, ?_, ?_⟩
      · intro h
        cases h
      · intro h
        cases h
      · intro nd h
        cases h
    · exact hInv.force_ok j u hu2 hf hpn2
  · intro np hd2 j u hu hi0
    have np0 : noPanic g.threads := noPanic_set_back ht np rfl
    rcases lookup_set_cases hu with ⟨hji, rfl⟩ | ⟨hji, hu2⟩
    · rfl
    · exact hInv.count_clear np0 hd2 j u hu2 hi0
  · intro np hd2
    exact absurd hd2 (by rw [hclean.1]; intro h; exact h rfl)

/-- Invariant preservation for the `PanicGuard` drop's
`swap(POISON_BIT, Release)`. -/
theorem inv_step_poisonSwap {g : GState} {i : Nat} {t : Thread}
    (hInv : Inv g) (ht : g.threads[i]? = some t) (hp : t.phase = Phase.unwindSwap) :
    Inv ⟨POISON_BIT, g.threads.set i
      { t with phase := Phase.unparkOp true (g.status &&& PARKED_BIT != 0) }⟩ := by
  have hhold_t : isHolder t.phase = true := by rw [hp]; rfl
  have hclean := hInv.hold_clean i t ht hhold_t
  have hpanic : t.panics = true := hInv.unwind_panics i t ht hp
  have hmid1 : t.invoked = 1 := hInv.mid_one i t ht (by rw [hp]; rfl)
  have hnoothers : ∀ (j : Nat) (u : Thread), j ≠ i → g.threads[j]? = some u →
      isHolder u.phase = false := by
    intro j u hji hu
    cases hh : isHolder u.phase with
    | false => rfl
    | true => exact (hInv.hold_excl i j t u (fun h => hji h.symm) ht hu hhold_t hh).elim
  refine ⟨by show POISON_BIT < 16; decide, ?_, ?_, ?_, ?_, ?_, ?_, ?_, ?_, ?_, ?_, ?_, ?_, ?_, ?_⟩
  · intro j u s2 hu hpu hd2
    rcases lookup_set_cases hu with ⟨hji, rfl⟩ | ⟨hji, hu2⟩
    · cases hpu
    · exact absurd (hInv.snap_done j u s2 hu2 hpu hd2) (by rw [hclean.1]; intro h; exact h rfl)
  · intro j u hu hpu
    rcases lookup_set_cases hu with ⟨hji, rfl⟩ | ⟨hji, hu2⟩
    · cases hpu
    · exact absurd (hInv.ret_done j u hu2 hpu) (by rw [hclean.1]; intro h; exact h rfl)
  · intro j u need hu hpu
    rcases lookup_set_cases hu with ⟨hji, rfl⟩ | ⟨hji, hu2⟩
    · injection hpu with h1 h2
      cases h1
    · exact absurd (hInv.unp_done j u need hu2 hpu) (by rw [hclean.1]; intro h; exact h rfl)
  · intro j k u v hjk hu hv hhu hhv
    rcases lookup_set_cases hu with ⟨hji, rfl⟩ | ⟨hji, hu2⟩
    · cases hhu
    · exact bool_clash hhu (hnoothers j u hji hu2)
  · intro j u hu hhu
    rcases lookup_set_cases hu with ⟨hji, rfl⟩ | ⟨hji, hu2⟩
    · cases hhu
    · exact (bool_clash hhu (hnoothers j u hji hu2)).elim
  · intro j u hu hhu
    rcases lookup_set_cases hu with ⟨hji, rfl⟩ | ⟨hji, hu2⟩
    · cases hhu
    · exact (bool_clash hhu (hnoothers j u hji hu2)).elim
  · intro h
    exact absurd (by decide : POISON_BIT &&& DONE_BIT = 0) h
  · intro j u hu hpu
    rcases lookup_set_cases hu with ⟨hji, rfl⟩ | ⟨hji, hu2⟩
    · cases hpu
    · exact hInv.pre_zero j u hu2 hpu
  · intro j u hu hpu
    rcases lookup_set_cases hu with ⟨hji, rfl⟩ | ⟨hji, hu2⟩
    · exact hmid1
    · exact hInv.mid_one j u hu2 hpu
  · intro j u hu
    rcases lookup_set_cases hu with ⟨hji, rfl⟩ | ⟨hji, hu2⟩
    · exact hInv.inv_le i t ht
    · exact hInv.inv_le j u hu2
  · intro j u hu hpu
    rcases lookup_set_cases hu with ⟨hji, rfl⟩ | ⟨hji, hu2⟩
    · cases hpu
    · exact hInv.unwind_panics j u hu2 hpu
  · intro j u hu hf hpn2
    rcases lookup_set_cases hu with ⟨hji, rfl⟩ | ⟨hji, hu2⟩
    · exact (bool_clash hpanic hpn2).elim
    · exact hInv.force_ok j u hu2 hf hpn2
  · intro np hd2 j u hu hi0
    have hx := np i ({ t with phase := Phase.unparkOp true (g.status &&& PARKED_BIT != 0) })
      (lookup_set_self ht)
    exact (bool_clash hpanic hx).elim
  · intro np hd2
    have hx := np i ({ t with phase := Phase.unparkOp true (g.status &&& PARKED_BIT != 0) })
      (lookup_set_self ht)
    exact (bool_clash hpanic hx).elim

/-- Invariant preservation for the publishing `swap(DONE_BIT, Release)`. -/
theorem inv_step_completeSwap {g : GState} {i : Nat} {t : Thread}
    (hInv : Inv g) (ht : g.threads[i]? = some t) (hp : t.phase = Phase.doneSwap) :
    Inv ⟨DONE_BIT, g.threads.set i
      { t with phase := Phase.unparkOp false (g.status &&& PARKED_BIT != 0) }⟩ := by
  have hhold_t : isHolder t.phase = true := by rw [hp]; rfl
  have hclean := hInv.hold_clean i t ht hhold_t
  have hmid1 : t.invoked = 1 := hInv.mid_one i t ht (by rw [hp]; rfl)
  have hnoothers : ∀ (j : Nat) (u : Thread), j ≠ i → g.threads[j]? = some u →
      isHolder u.phase = false := by
    intro j u hji hu
    cases hh : isHolder u.phase with
    | false => rfl
    | true => exact (hInv.hold_excl i j t u (fun h => hji h.symm) ht hu hhold_t hh).elim
  have hDD : DONE_BIT &&& DONE_BIT ≠ 0 := by decide
  refine ⟨by show DONE_BIT < 16; decide, ?_, ?_, ?_, ?_, ?_, ?_, ?_, ?_, ?_, ?_, ?_, ?_, ?_, ?_⟩
  · intro j u s2 hu hpu hd2
    exact hDD
  · intro j u hu hpu
    exact hDD
  · intro j u need hu hpu
    exact hDD
  · intro j k u v hjk hu hv hhu hhv
    rcases lookup_set_cases hu with ⟨hji, rfl⟩ | ⟨hji, hu2⟩
    · cases hhu
    · exact bool_clash hhu (hnoothers j u hji hu2)
  · intro j u hu hhu
    rcases lookup_set_cases hu with ⟨hji, rfl⟩ | ⟨hji, hu2⟩
    · cases hhu
    · exact (bool_clash hhu (hnoothers j u hji hu2)).elim
  · intro j u hu hhu
    rcases lookup_set_cases hu with ⟨hji, rfl⟩ | ⟨hji, hu2⟩
    · cases hhu
    · exact (bool_clash hhu (hnoothers j u hji hu2)).elim
  · intro _
    rfl
  · intro j u hu hpu
    rcases lookup_set_cases hu with ⟨hji, rfl⟩ | ⟨hji, hu2⟩
    · cases hpu
    · exact hInv.pre_zero j u hu2 hpu
  · intro j u hu hpu
    rcases lookup_set_cases hu with ⟨hji, rfl⟩ | ⟨hji, hu2⟩
    · exact hmid1
    · exact hInv.mid_one j u hu2 hpu
  · intro j u hu
    rcases lookup_set_cases hu with ⟨hji, rfl⟩ | ⟨hji, hu2⟩
    · exact hInv.inv_le i t ht
    · exact hInv.inv_le j u hu2
  · intro j u hu hpu
    rcases lookup_set_cases hu with ⟨hji, rfl⟩ | ⟨hji, hu2⟩
    · cases hpu
    · exact hInv.unwind_panics j u hu2 hpu
  · intro j u hu hf hpn2
    rcases lookup_set_cases hu with ⟨hji, rfl⟩ | ⟨hji, hu2⟩
    · refine ⟨?_, ?_, ?_⟩
      · intro h
        cases h
      · intro h
        cases h
      · intro nd h
        injection h with h1 h2
        cases h1
    · exact hInv.force_ok j u hu2 hf hpn2
  · intro np hd2 j u hu hi0
    exact absurd hd2 (by intro h; exact hDD h)
  · intro np hd2
    have np0 : noPanic g.threads := noPanic_set_back ht np rfl
    refine ⟨i, { t with phase := Phase.unparkOp false (g.status &&& PARKED_BIT != 0) },
      lookup_set_self ht, hmid1, ?_⟩
    intro j u hu hji
    rcases lookup_set_cases hu with ⟨hji2, rfl⟩ | ⟨hji2, hu2⟩
    · exact absurd hji2 hji
    · by_cases h0 : u.invoked = 0
      · exact h0
      · have hds := hInv.count_clear np0 hclean.1 j u hu2 h0
        exact (hInv.hold_excl i j t u (fun h => hji2 h.symm) ht hu2 hhold_t
          (by rw [hds]; rfl)).elim

/-- Invariant preservation for the `unpark_all`-and-return step on the
success path (after the `DONE` swap). -/
theorem inv_step_unpark_false {g : GState} {i : Nat} {t : Thread} {need : Bool}
    (hInv : Inv g) (ht : g.threads[i]? = some t)
    (hp : t.phase = Phase.unparkOp false need) :
    Inv ⟨g.status, (if need then g.threads.map wake else g.threads).set i
      { t with phase := Phase.retDone }⟩ := by
  have hdone : g.status &&& DONE_BIT ≠ 0 := hInv.unp_done i t need ht hp
  have hmid1 : t.invoked = 1 := hInv.mid_one i t ht (by rw [hp]; rfl)
  have hnohold : ∀ (j : Nat) (u : Thread), g.threads[j]? = some u →
      isHolder u.phase = false := by
    intro j u hu
    cases hh : isHolder u.phase with
    | false => rfl
    | true => exact absurd (hInv.hold_clean j u hu hh).1 hdone
  refine ⟨hInv.status_lt, ?_, ?_, ?_, ?_, ?_, ?_, hInv.done_exact, ?_, ?_, ?_, ?_, ?_, ?_, ?_⟩
  · intro j u s2 hu hpu hd2
    exact hdone
  · intro j u hu hpu
    exact hdone
  · intro j u need2 hu hpu
    exact hdone
  · intro j k u v hjk hu hv hhu hhv
    rcases lookup_unpark_cases hu with ⟨hji, rfl⟩ | ⟨hji, w, hwv, hwEq⟩
    · cases hhu
    · rcases wakeEq_phase hwEq with hph | ⟨hvp, hph⟩
      · rw [hph] at hhu
        exact bool_clash hhu (hnohold j w hwv)
      · rw [hph] at hhu
        cases hhu
  · intro j u hu hhu
    rcases lookup_unpark_cases hu with ⟨hji, rfl⟩ | ⟨hji, w, hwv, hwEq⟩
    · cases hhu
    · rcases wakeEq_phase hwEq with hph | ⟨hvp, hph⟩
      · rw [hph] at hhu
        exact (bool_clash hhu (hnohold j w hwv)).elim
      · rw [hph] at hhu
        cases hhu
  · intro j u hu hhu
    rcases lookup_unpark_cases hu with ⟨hji, rfl⟩ | ⟨hji, w, hwv, hwEq⟩
    · cases hhu
    · rcases wakeEq_phase hwEq with hph | ⟨hvp, hph⟩
      · rw [hph] at hhu
        exact (bool_clash hhu (hnohold j w hwv)).elim
      · rw [hph] at hhu
        cases hhu
  · intro j u hu hpu
    rcases lookup_unpark_cases hu with ⟨hji, rfl⟩ | ⟨hji, w, hwv, hwEq⟩
    · cases hpu
    · rcases wakeEq_phase hwEq with hph | ⟨hvp, hph⟩
      · rw [hph] at hpu
        rw [wakeEq_invoked hwEq]
        exact hInv.pre_zero j w hwv hpu
      · rw [wakeEq_invoked hwEq]
        exact hInv.pre_zero j w hwv (by rw [hvp]; rfl)
  · intro j u hu hpu
    rcases lookup_unpark_cases hu with ⟨hji, rfl⟩ | ⟨hji, w, hwv, hwEq⟩
    · cases hpu
    · rcases wakeEq_phase hwEq with hph | ⟨hvp, hph⟩
      · rw [hph] at hpu
        rw [wakeEq_invoked hwEq]
        exact hInv.mid_one j w hwv hpu
      · rw [hph] at hpu
        cases hpu
  · intro j u hu
    rcases lookup_unpark_cases hu with ⟨hji, rfl⟩ | ⟨hji, w, hwv, hwEq⟩
    · exact hInv.inv_le i t ht
    · rw [wakeEq_invoked hwEq]
      exact hInv.inv_le j w hwv
  · intro j u hu hpu
    rcases lookup_unpark_cases hu with ⟨hji, rfl⟩ | ⟨hji, w, hwv, hwEq⟩
    · cases hpu
    · rcases wakeEq_phase hwEq with hph | ⟨hvp, hph⟩
      · rw [hph] at hpu
        rw [wakeEq_panics hwEq]
        exact hInv.unwind_panics j w hwv hpu
      · rw [hph] at hpu
        cases hpu
  · intro j u hu hf hpn
    rcases lookup_unpark_cases hu with ⟨hji, rfl⟩ | ⟨hji, w, hwv, hwEq⟩
    · refine ⟨?_, ?_, ?_⟩
      · intro h
        cases h
      · intro h
        cases h
      · intro nd h
        cases h
    · rw [wakeEq_force hwEq] at hf
      rw [wakeEq_panics hwEq] at hpn
      have hfo := hInv.force_ok j w hwv hf hpn
      rcases wakeEq_phase hwEq with hph | ⟨hvp, hph⟩
      · refine ⟨?_, ?_, ?_⟩
        · rw [hph]
          exact hfo.1
        · rw [hph]
          exact hfo.2.1
        · intro nd
          rw [hph]
          exact hfo.2.2 nd
      · refine ⟨?_, ?_, ?_⟩
        · rw [hph]
          intro h
          cases h
        · rw [hph]
          intro h
          cases h
        · intro nd
          rw [hph]
          intro h
          cases h
  · intro np hd2
    exact (hdone hd2).elim
  · intro np hd2
    have np0 : noPanic g.threads := noPanic_unpark_back ht np rfl
    obtain ⟨w, tw, hw, h1, h0⟩ := hInv.count_set np0 hd2
    have hwi : w = i := by
      by_contra hwi
      have hz := h0 i t ht (fun h => hwi h.symm)
      rw [hmid1] at hz
      cases hz
    subst hwi
    cases (Option.some.injEq _ _ ▸ ht.symm.trans hw)
    refine ⟨w, { t with phase := Phase.retDone }, lookup_unpark_self ht, hmid1, ?_⟩
    intro j u hu hji
    rcases lookup_unpark_cases hu with ⟨hji2, rfl⟩ | ⟨hji2, w2, hw2, hwEq⟩
    · exact absurd hji2 hji
    · rw [wakeEq_invoked hwEq]
      exact h0 j w2 hw2 hji2

/-- Invariant preservation for the `unpark_all`-and-rethrow step on the
poison path (after the `POISON` swap). -/
theorem inv_step_unpark_true {g : GState} {i : Nat} {t : Thread} {need : Bool}
    (hInv : Inv g) (ht : g.threads[i]? = some t)
    (hp : t.phase = Phase.unparkOp true need) :
    Inv ⟨g.status, (if need then g.threads.map wake else g.threads).set i
      { t with phase := Phase.retPanic }⟩ := by
  have hmid1 : t.invoked = 1 := hInv.mid_one i t ht (by rw [hp]; rfl)
  refine ⟨hInv.status_lt, ?_, ?_, ?_, ?_, ?_, ?_, hInv.done_exact, ?_, ?_, ?_, ?_, ?_, ?_, ?_⟩
  · intro j u s2 hu hpu hd2
    rcases lookup_unpark_cases hu with ⟨hji, rfl⟩ | ⟨hji, w, hwv, hwEq⟩
    · cases hpu
    · rcases wakeEq_phase hwEq with hph | ⟨hvp, hph⟩
      · rw [hph] at hpu
        exact hInv.snap_done j w s2 hwv hpu hd2
      · rw [hph] at hpu
        cases hpu
  · intro j u hu hpu
    rcases lookup_unpark_cases hu with ⟨hji, rfl⟩ | ⟨hji, w, hwv, hwEq⟩
    · cases hpu
    · rcases wakeEq_phase hwEq with hph | ⟨hvp, hph⟩
      · rw [hph] at hpu
        exact hInv.ret_done j w hwv hpu
      · rw [hph] at hpu
        cases hpu
  · intro j u need2 hu hpu
    rcases lookup_unpark_cases hu with ⟨hji, rfl⟩ | ⟨hji, w, hwv, hwEq⟩
    · cases hpu
    · rcases wakeEq_phase hwEq with hph | ⟨hvp, hph⟩
      · rw [hph] at hpu
        exact hInv.unp_done j w need2 hwv hpu
      · rw [hph] at hpu
        cases hpu
  · intro j k u v hjk hu hv hhu hhv
    rcases lookup_unpark_cases hu with ⟨hji, rfl⟩ | ⟨hji, w1, hw1, hEq1⟩
    · cases hhu
    · rcases lookup_unpark_cases hv with ⟨hki, rfl⟩ | ⟨hki, w2, hw2, hEq2⟩
      · cases hhv
      · rcases wakeEq_phase hEq1 with hph1 | ⟨hvp1, hph1⟩
        · rcases wakeEq_phase hEq2 with hph2 | ⟨hvp2, hph2⟩
          · rw [hph1] at hhu
            rw [hph2] at hhv
            exact hInv.hold_excl j k w1 w2 hjk hw1 hw2 hhu hhv
          · rw [hph2] at hhv
            cases hhv
        · rw [hph1] at hhu
          cases hhu
  · intro j u hu hhu
    rcases lookup_unpark_cases hu with ⟨hji, rfl⟩ | ⟨hji, w, hwv, hwEq⟩
    · cases hhu
    · rcases wakeEq_phase hwEq with hph | ⟨hvp, hph⟩
      · rw [hph] at hhu
        exact hInv.hold_locked j w hwv hhu
      · rw [hph] at hhu
        cases hhu
  · intro j u hu hhu
    rcases lookup_unpark_cases hu with ⟨hji, rfl⟩ | ⟨hji, w, hwv, hwEq⟩
    · cases hhu
    · rcases wakeEq_phase hwEq with hph | ⟨hvp, hph⟩
      · rw [hph] at hhu
        exact hInv.hold_clean j w hwv hhu
      · rw [hph] at hhu
        cases hhu
  · intro j u hu hpu
    rcases lookup_unpark_cases hu with ⟨hji, rfl⟩ | ⟨hji, w, hwv, hwEq⟩
    · cases hpu
    · rcases wakeEq_phase hwEq with hph | ⟨hvp, hph⟩
      · rw [hph] at hpu
        rw [wakeEq_invoked hwEq]
        exact hInv.pre_zero j w hwv hpu
      · rw [wakeEq_invoked hwEq]
        exact hInv.pre_zero j w hwv (by rw [hvp]; rfl)
  · intro j u hu hpu
    rcases lookup_unpark_cases hu with ⟨hji, rfl⟩ | ⟨hji, w, hwv, hwEq⟩
    · cases hpu
    · rcases wakeEq_phase hwEq with hph | ⟨hvp, hph⟩
      · rw [hph] at hpu
        rw [wakeEq_invoked hwEq]
        exact hInv.mid_one j w hwv hpu
      · rw [hph] at hpu
        cases hpu
  · intro j u hu
    rcases lookup_unpark_cases hu with ⟨hji, rfl⟩ | ⟨hji, w, hwv, hwEq⟩
    · exact hInv.inv_le i t ht
    · rw [wakeEq_invoked hwEq]
      exact hInv.inv_le j w hwv
  · intro j u hu hpu
    rcases lookup_unpark_cases hu with ⟨hji, rfl⟩ | ⟨hji, w, hwv, hwEq⟩
    · cases hpu
    · rcases wakeEq_phase hwEq with hph | ⟨hvp, hph⟩
      · rw [hph] at hpu
        rw [wakeEq_panics hwEq]
        exact hInv.unwind_panics j w hwv hpu
      · rw [hph] at hpu
        cases hpu
  · intro j u hu hf hpn
    rcases lookup_unpark_cases hu with ⟨hji, rfl⟩ | ⟨hji, w, hwv, hwEq⟩
    · have hfo := hInv.force_ok i t ht hf hpn
      exact (hfo.2.2 need hp).elim
    · rw [wakeEq_force hwEq] at hf
      rw [wakeEq_panics hwEq] at hpn
      have hfo := hInv.force_ok j w hwv hf hpn
      rcases wakeEq_phase hwEq with hph | ⟨hvp, hph⟩
      · refine ⟨?_, ?_, ?_⟩
        · rw [hph]
          exact hfo.1
        · rw [hph]
          exact hfo.2.1
        · intro nd
          rw [hph]
          exact hfo.2.2 nd
      · refine ⟨?_, ?_, ?_⟩
        · rw [hph]
          intro h
          cases h
        · rw [hph]
          intro h
          cases h
        · intro nd
          rw [hph]
          intro h
          cases h
  · intro np hd2 j u hu hi0
    have np0 : noPanic g.threads := noPanic_unpark_back ht np rfl
    rcases lookup_unpark_cases hu with ⟨hji, rfl⟩ | ⟨hji, w, hwv, hwEq⟩
    · have hds := hInv.count_clear np0 hd2 i t ht hi0
      rw [hp] at hds
      cases hds
    · rw [wakeEq_invoked hwEq] at hi0
      have hds := hInv.count_clear np0 hd2 j w hwv hi0
      rcases wakeEq_phase hwEq with hph | ⟨hvp, hph⟩
      · rw [hph, hds]
      · rw [hds] at hvp
        cases hvp
  · intro np hd2
    have np0 : noPanic g.threads := noPanic_unpark_back ht np rfl
    obtain ⟨w, tw, hw, h1, h0⟩ := hInv.count_set np0 hd2
    have hwi : w = i := by
      by_contra hwi
      have hz := h0 i t ht (fun h => hwi h.symm)
      rw [hmid1] at hz
      cases hz
    subst hwi
    cases (Option.some.injEq _ _ ▸ ht.symm.trans hw)
    refine ⟨w, { t with phase := Phase.retPanic }, lookup_unpark_self ht, hmid1, ?_⟩
    intro j u hu hji
    rcases lookup_unpark_cases hu with ⟨hji2, rfl⟩ | ⟨hji2, w2, hw2, hwEq⟩
    · exact absurd hji2 hji
    · rw [wakeEq_invoked hwEq]
      exact h0 j w2 hw2 hji2

/-- The invariant is preserved by every step. -/
theorem inv_step {g g' : GState} (hInv : Inv g) (hstep : OnceStep g g') : Inv g' := by
  cases hstep with
  | fastHit j u htj hp hs =>
    exact inv_step_simple hInv htj rfl rfl rfl (by rw [hp]; rfl) rfl
      (by intro s2 hq hd2; cases hq)
      (by intro hq; rw [fastPathHit_eq_one hs]; decide)
      rfl
      (by intro h; cases h)
      (by intro h; cases h)
  | fastMiss j u htj hp hs =>
    exact inv_step_simple hInv htj rfl rfl rfl (by rw [hp]; rfl) rfl
      (by intro s2 hq hd2; cases hq)
      (by intro hq; cases hq)
      rfl
      (fun _ => hInv.pre_zero j u htj (by rw [hp]; rfl))
      (by intro h; cases h)
  | loadSnap j u htj hp =>
    exact inv_step_simple hInv htj rfl rfl rfl (by rw [hp]; rfl) rfl
      (by intro s2 hq hd2; cases hq; exact hd2)
      (by intro hq; cases hq)
      rfl
      (fun _ => hInv.pre_zero j u htj (by rw [hp]; rfl))
      (by intro h; cases h)
  | bodyDone j u s htj hp hd =>
    exact inv_step_simple hInv htj rfl rfl rfl (by rw [hp]; rfl) rfl
      (by intro s2 hq hd2; cases hq)
      (fun _ => hInv.snap_done j u s htj hp hd)
      rfl
      (by intro h; cases h)
      (by intro h; cases h)
  | bodyPoison j u s htj hp hd hps hf =>
    exact inv_step_simple hInv htj rfl rfl rfl (by rw [hp]; rfl) rfl
      (by intro s2 hq hd2; cases hq)
      (by intro hq; cases hq)
      rfl
      (by intro h; cases h)
      (fun _ => Or.inl hf)
  | acqOk j u s htj hp hd hps hl he =>
    exact inv_step_acqOk hInv htj hp hd hl he
  | acqFail j u s htj hp hd hps hl =>
    exact inv_step_simple hInv htj rfl rfl rfl (by rw [hp]; rfl) rfl
      (by intro s2 hq hd2; cases hq; exact hd2)
      (by intro hq; cases hq)
      rfl
      (fun _ => hInv.pre_zero j u htj (by rw [hp]; rfl))
      (by intro h; cases h)
  | spinRetry j u s htj hp hd hps hl hpk =>
    exact inv_step_simple hInv htj rfl rfl rfl (by rw [hp]; rfl) rfl
      (by intro s2 hq hd2; cases hq)
      (by intro hq; cases hq)
      rfl
      (fun _ => hInv.pre_zero j u htj (by rw [hp]; rfl))
      (by intro h; cases h)
  | parkCasOk j u s htj hp hd hps hl hpk he =>
    exact inv_step_parkCasOk hInv htj hp hd hl he
  | parkCasFail j u s htj hp hd hps hl hpk =>
    exact inv_step_simple hInv htj rfl rfl rfl (by rw [hp]; rfl) rfl
      (by intro s2 hq hd2; cases hq; exact hd2)
      (by intro hq; cases hq)
      rfl
      (fun _ => hInv.pre_zero j u htj (by rw [hp]; rfl))
      (by intro h; cases h)
  | toPark j u s htj hp hd hps hl hpk =>
    exact inv_step_simple hInv htj rfl rfl rfl (by rw [hp]; rfl) rfl
      (by intro s2 hq hd2; cases hq)
      (by intro hq; cases hq)
      rfl
      (fun _ => hInv.pre_zero j u htj (by rw [hp]; rfl))
      (by intro h; cases h)
  | parkEnq j u htj hp hv =>
    exact inv_step_simple hInv htj rfl rfl rfl (by rw [hp]; rfl) rfl
      (by intro s2 hq hd2; cases hq)
      (by intro hq; cases hq)
      rfl
      (fun _ => hInv.pre_zero j u htj (by rw [hp]; rfl))
      (by intro h; cases h)
  | parkAbort j u htj hp hv =>
    exact inv_step_simple hInv htj rfl rfl rfl (by rw [hp]; rfl) rfl
      (by intro s2 hq hd2; cases hq)
      (by intro hq; cases hq)
      rfl
      (fun _ => hInv.pre_zero j u htj (by rw [hp]; rfl))
      (by intro h; cases h)
  | invoke j u st htj hp =>
    cases hpn : u.panics with
    | true => simpa [hpn] using inv_step_invoke_true hInv htj hp hpn
    | false => simpa [hpn] using inv_step_invoke_false hInv htj hp hpn
  | poisonSwap j u htj hp =>
    exact inv_step_poisonSwap hInv htj hp
  | completeSwap j u htj hp =>
    exact inv_step_completeSwap hInv htj hp
  | unparkRun j u pk need htj hp =>
    cases pk with
    | true => simpa using inv_step_unpark_true hInv htj hp
    | false => simpa using inv_step_unpark_false hInv htj hp

/-- Every reachable state satisfies the invariant. -/
theorem inv_reach {ps : List (Bool × Bool)} {g : GState} (h : Reach ps g) : Inv g := by
  induction h with
  | refl => exact inv_init ps
  | tail hab hbc ih => exact inv_step ih hbc

/-! ### Auxiliary counting lemmas -/

theorem sum_invoked_eq_zero {l : List Thread}
    (h : ∀ (j : Nat) (u : Thread), l[j]? = some u → u.invoked = 0) :
    (l.map Thread.invoked).sum = 0 := by
  induction l with
  | nil => rfl
  | cons a l ih =>
    have ha := h 0 a (by simp)
    have ht := ih (fun j u hu => h (j + 1) u (by simpa using hu))
    simp [ha, ht]

theorem sum_invoked_eq_one {l : List Thread} {w : Nat} {tw : Thread}
    (hw : l[w]? = some tw) (h1 : tw.invoked = 1)
    (h0 : ∀ (j : Nat) (u : Thread), l[j]? = some u → j ≠ w → u.invoked = 0) :
    (l.map Thread.invoked).sum = 1 := by
  induction l generalizing w with
  | nil => cases hw
  | cons a l ih =>
    cases w with
    | zero =>
      have ha : a = tw := by
        have h2 : some a = some tw := by simpa using hw
        injection h2
      have hz : (l.map Thread.invoked).sum = 0 := by
        apply sum_invoked_eq_zero
        intro j u hu
        exact h0 (j + 1) u (by simpa using hu) (by intro h; cases h)
      subst ha
      simp [h1, hz]
    | succ w2 =>
      have hw2 : l[w2]? = some tw := by simpa using hw
      have ha : a.invoked = 0 := h0 0 a (by simp) (by intro h; cases h)
      have hrec := ih hw2 (fun j u hu hj =>
        h0 (j + 1) u (by simpa using hu) (by intro hh; injection hh with hh2; exact hj hh2))
      simp [ha, hrec]

/-- `DONE_BIT`, once set, is preserved by every single step. -/
theorem done_mono {g g' : GState} (hInv : Inv g) (hstep : OnceStep g g')
    (hd : g.status &&& DONE_BIT ≠ 0) : g'.status &&& DONE_BIT ≠ 0 := by
  cases hstep with
  | fastHit j u htj hp hs => exact hd
  | fastMiss j u htj hp hs => exact hd
  | loadSnap j u htj hp => exact hd
  | bodyDone j u s htj hp hd2 => exact hd
  | bodyPoison j u s htj hp hd2 hps hf => exact hd
  | acqOk j u s htj hp hd2 hps hl he =>
    rw [he] at hd
    exact absurd hd2 hd
  | acqFail j u s htj hp hd2 hps hl => exact hd
  | spinRetry j u s htj hp hd2 hps hl hpk => exact hd
  | parkCasOk j u s htj hp hd2 hps hl hpk he =>
    rw [he] at hd
    exact absurd hd2 hd
  | parkCasFail j u s htj hp hd2 hps hl hpk => exact hd
  | toPark j u s htj hp hd2 hps hl hpk => exact hd
  | parkEnq j u htj hp hv => exact hd
  | parkAbort j u htj hp hv => exact hd
  | invoke j u st htj hp => exact hd
  | poisonSwap j u htj hp =>
    exact absurd (hInv.hold_clean j u htj (by rw [hp]; rfl)).1 hd
  | completeSwap j u htj hp =>
    show DONE_BIT &&& DONE_BIT ≠ 0
    decide
  | unparkRun j u pk need htj hp => exact hd

theorem done_perm_aux {g g' : GState} (hInv : Inv g)
    (hsteps : Relation.ReflTransGen OnceStep g g')
    (hd : g.status &&& DONE_BIT ≠ 0) :
    g'.status &&& DONE_BIT ≠ 0 ∧ Inv g' := by
  induction hsteps with
  | refl => exact ⟨hd, hInv⟩
  | tail hab hbc ih => exact ⟨done_mono ih.2 hbc ih.1, inv_step ih.2 hbc⟩

/-! ### The claims -/

/-- C1: for any number of threads concurrently calling `call_once` on the
same `Once` with routines that record their invocation (and do not panic),
once all callers have returned, exactly one routine invocation has
happened — for every thread count and interleaving of the transition
system. -/
theorem call_once_exactly_one {ps : List (Bool × Bool)} {g : GState}
    (hr : Reach ps g) (hne : g.threads ≠ [])
    (hforce : ∀ t ∈ g.threads, t.force = false)
    (hnp : ∀ t ∈ g.threads, t.panics = false)
    (hret : ∀ t ∈ g.threads, t.phase = Phase.retDone) :
    (g.threads.map Thread.invoked).sum = 1 := by
  have hInv := inv_reach hr
  obtain ⟨t0, ht0⟩ : ∃ t0 : Thread, g.threads[0]? = some t0 := by
    cases hgt : g.threads with
    | nil => exact absurd hgt hne
    | cons a l => exact ⟨a, by simp [hgt]⟩
  have hmem0 : t0 ∈ g.threads := List.mem_iff_getElem?.mpr ⟨0, ht0⟩
  have hd : g.status &&& DONE_BIT ≠ 0 := hInv.ret_done 0 t0 ht0 (hret t0 hmem0)
  have np : noPanic g.threads := fun j u hu =>
    hnp u (List.mem_iff_getElem?.mpr ⟨j, hu⟩)
  obtain ⟨w, tw, hw, h1, h0⟩ := hInv.count_set np hd
  exact sum_invoked_eq_one hw h1 h0

/-- C8: once `DONE_BIT` is set it is never cleared by any further steps,
and in particular the panic guard's poisoning swap can never be pending
(no thread is at the guard swap) while `DONE_BIT` is set. -/
theorem done_bit_permanent {ps : List (Bool × Bool)} {g g' : GState}
    (hr : Reach ps g) (hd : g.status &&& DONE_BIT ≠ 0)
    (hsteps : Relation.ReflTransGen OnceStep g g') :
    g'.status &&& DONE_BIT ≠ 0 ∧
    ∀ (i : Nat) (t : Thread), g'.threads[i]? = some t →
      t.phase ≠ Phase.unwindSwap := by
  obtain ⟨hd', hInv'⟩ := done_perm_aux (inv_reach hr) hsteps hd
  refine ⟨hd', ?_⟩
  intro i t ht hp
  exact absurd (hInv'.hold_clean i t ht (by rw [hp]; rfl)).1 hd'

/-- C9: in every reachable status, if `DONE_BIT` is set the status is
exactly `DONE_BIT` (it never coexists with `POISON_BIT`, `LOCKED_BIT` or
`PARKED_BIT`), which makes the fast path's equality test
`status == DONE_BIT` equivalent to testing the `DONE_BIT` flag. -/
theorem done_exact_reachable {ps : List (Bool × Bool)} {g : GState}
    (hr : Reach ps g) :
    (g.status &&& DONE_BIT ≠ 0 → g.status = DONE_BIT) ∧
    (fastPathHit g.status = true ↔ g.status &&& DONE_BIT ≠ 0) := by
  have hInv := inv_reach hr
  refine ⟨hInv.done_exact, ?_, ?_⟩
  · intro h
    rw [fastPathHit_eq_one h]
    decide
  · intro h
    rw [hInv.done_exact h]
    decide

/-- C10: within a single invocation of `call_once` or `call_once_force`,
the user closure is invoked at most once (so the `Option::take` wrapper's
unchecked unwrap never observes `None`). -/
theorem closure_invoked_at_most_once {ps : List (Bool × Bool)} {g : GState}
    (hr : Reach ps g) : ∀ t ∈ g.threads, t.invoked ≤ 1 := by
  intro t hmem
  obtain ⟨i, hi⟩ := List.mem_iff_getElem?.mp hmem
  exact (inv_reach hr).inv_le i t hi

/-- C2: the fast path of `call_once` and `call_once_force` performs a single
acquire-ordered load; on every reachable status its equality test hits
exactly when `DONE_BIT` is set in the loaded value (no other flag affects
the decision), and when `DONE_BIT` is set the only step the thread can take
returns immediately, changing nothing else. -/
theorem fast_path_spec {ps : List (Bool × Bool)} {g : GState} {i : Nat} {t : Thread}
    (hr : Reach ps g) (ht : g.threads[i]? = some t)
    (hph : t.phase = Phase.fastLoad) :
    (fastPathHit g.status = true ↔ g.status &&& DONE_BIT ≠ 0) ∧
    (g.status &&& DONE_BIT ≠ 0 →
      ∀ g' : GState, OnceStep g g' → g'.threads[i]? ≠ some t →
        g' = ⟨g.status, g.threads.set i { t with phase := Phase.retDone }⟩) := by
  have hInv := inv_reach hr
  have hiff : fastPathHit g.status = true ↔ g.status &&& DONE_BIT ≠ 0 := by
    constructor
    · intro h
      rw [fastPathHit_eq_one h]
      decide
    · intro h
      rw [hInv.done_exact h]
      decide
  refine ⟨hiff, ?_⟩
  intro hd g' hstep hmoved
  have hloc := step_localize hstep ht (by rw [hph]; intro h; cases h) hmoved
  cases hloc with
  | fastHit hp hs => rfl
  | fastMiss hp hs => exact (bool_clash (hiff.mpr hd) hs).elim
  | loadSnap hp => simp [hph] at hp
  | bodyDone s hp hd2 => simp [hph] at hp
  | bodyPoison s hp hd2 hps hf => simp [hph] at hp
  | acqOk s hp hd2 hps hl he => simp [hph] at hp
  | acqFail s hp hd2 hps hl => simp [hph] at hp
  | spinRetry s hp hd2 hps hl hpk => simp [hph] at hp
  | parkCasOk s hp hd2 hps hl hpk he => simp [hph] at hp
  | parkCasFail s hp hd2 hps hl hpk => simp [hph] at hp
  | toPark s hp hd2 hps hl hpk => simp [hph] at hp
  | parkEnq hp hv => simp [hph] at hp
  | parkAbort hp hv => simp [hph] at hp
  | invoke st hp => simp [hph] at hp
  | poisonSwap hp => simp [hph] at hp
  | completeSwap hp => simp [hph] at hp
  | unparkRun pk need hp => simp [hph] at hp

/-- C3: in the slow-path loop, when `LOCKED_BIT` is not in the snapshot
(and neither exit applies), the thread attempts a single compare-exchange
that simultaneously sets `LOCKED_BIT` and clears `POISON_BIT` (with acquire
ordering in the source); on success it exits the loop into the running
phase, on failure it retries from the top of the loop with the freshly
returned status as its snapshot. -/
theorem acquire_cas_spec {g g' : GState} {i : Nat} {t : Thread} {s : Nat}
    (ht : g.threads[i]? = some t) (hph : t.phase = Phase.loopBody s)
    (hd : s &&& DONE_BIT = 0) (hps : s &&& POISON_BIT = 0 ∨ t.force = true)
    (hl : s &&& LOCKED_BIT = 0)
    (hstep : OnceStep g g') (hmoved : g'.threads[i]? ≠ some t) :
    (g.status = s ∧
      g' = ⟨(s ||| LOCKED_BIT) &&& (255 ^^^ POISON_BIT),
        g.threads.set i { t with phase := Phase.running ⟨s &&& POISON_BIT != 0⟩ }⟩) ∨
    g' = ⟨g.status, g.threads.set i { t with phase := Phase.loopBody g.status }⟩ := by
  have hloc := step_localize hstep ht (by rw [hph]; intro h; cases h) hmoved
  cases hloc with
  | fastHit hp hs => simp [hph] at hp
  | fastMiss hp hs => simp [hph] at hp
  | loadSnap hp => simp [hph] at hp
  | bodyDone s2 hp hd2 =>
    rw [hph] at hp
    injection hp with hs2
    subst hs2
    exact absurd hd2 (by rw [hd]; intro h; exact h rfl)
  | bodyPoison s2 hp hd2 hps2 hf =>
    rw [hph] at hp
    injection hp with hs2
    subst hs2
    rcases hps with hc | hc
    · exact absurd hc hps2
    · exact (bool_clash hc hf).elim
  | acqOk s2 hp hd2 hps2 hl2 he =>
    rw [hph] at hp
    injection hp with hs2
    subst hs2
    exact Or.inl ⟨he, rfl⟩
  | acqFail s2 hp hd2 hps2 hl2 =>
    exact Or.inr rfl
  | spinRetry s2 hp hd2 hps2 hl2 hpk =>
    rw [hph] at hp
    injection hp with hs2
    subst hs2
    exact absurd hl hl2
  | parkCasOk s2 hp hd2 hps2 hl2 hpk he =>
    rw [hph] at hp
    injection hp with hs2
    subst hs2
    exact absurd hl hl2
  | parkCasFail s2 hp hd2 hps2 hl2 hpk =>
    rw [hph] at hp
    injection hp with hs2
    subst hs2
    exact absurd hl hl2
  | toPark s2 hp hd2 hps2 hl2 hpk =>
    rw [hph] at hp
    injection hp with hs2
    subst hs2
    exact absurd hl hl2
  | parkEnq hp hv => simp [hph] at hp
  | parkAbort hp hv => simp [hph] at hp
  | invoke st hp => simp [hph] at hp
  | poisonSwap hp => simp [hph] at hp
  | completeSwap hp => simp [hph] at hp
  | unparkRun pk need hp => simp [hph] at hp

/-- C4: a slow-path snapshot with `POISON_BIT` set, `DONE_BIT` clear, in the
non-forcing entry point aborts the call with a panic (after an acquire
fence, which the interleaving model renders as a no-op) without touching
the status; and the forcing entry point never panics on account of poison:
a `call_once_force` caller whose own closure does not panic is never in the
panicked state. -/
theorem poison_panic_spec :
    (∀ (g g' : GState) (i : Nat) (t : Thread) (s : Nat),
      g.threads[i]? = some t → t.phase = Phase.loopBody s →
      s &&& DONE_BIT = 0 → s &&& POISON_BIT ≠ 0 → t.force = false →
      OnceStep g g' → g'.threads[i]? ≠ some t →
      g' = ⟨g.status, g.threads.set i { t with phase := Phase.retPanic }⟩) ∧
    (∀ (ps : List (Bool × Bool)) (g : GState) (i : Nat) (t : Thread),
      Reach ps g → g.threads[i]? = some t → t.force = true →
      t.panics = false → t.phase ≠ Phase.retPanic) := by
  constructor
  · intro g g' i t s ht hph hd hps hf hstep hmoved
    have hloc := step_localize hstep ht (by rw [hph]; intro h; cases h) hmoved
    cases hloc with
    | fastHit hp hs => simp [hph] at hp
    | fastMiss hp hs => simp [hph] at hp
    | loadSnap hp => simp [hph] at hp
    | bodyDone s2 hp hd2 =>
      rw [hph] at hp
      injection hp with hs2
      subst hs2
      exact absurd hd2 (by rw [hd]; intro h; exact h rfl)
    | bodyPoison s2 hp hd2 hps2 hf2 => rfl
    | acqOk s2 hp hd2 hps2 hl2 he =>
      rw [hph] at hp
      injection hp with hs2
      subst hs2
      rcases hps2 with hc | hc
      · exact absurd hc hps
      · exact (bool_clash hc hf).elim
    | acqFail s2 hp hd2 hps2 hl2 =>
      rw [hph] at hp
      injection hp with hs2
      subst hs2
      rcases hps2 with hc | hc
      · exact absurd hc hps
      · exact (bool_clash hc hf).elim
    | spinRetry s2 hp hd2 hps2 hl2 hpk =>
      rw [hph] at hp
      injection hp with hs2
      subst hs2
      rcases hps2 with hc | hc
      · exact absurd hc hps
      · exact (bool_clash hc hf).elim
    | parkCasOk s2 hp hd2 hps2 hl2 hpk he =>
      rw [hph] at hp
      injection hp with hs2
      subst hs2
      rcases hps2 with hc | hc
      · exact absurd hc hps
      · exact (bool_clash hc hf).elim
    | parkCasFail s2 hp hd2 hps2 hl2 hpk =>
      rw [hph] at hp
      injection hp with hs2
      subst hs2
      rcases hps2 with hc | hc
      · exact absurd hc hps
      · exact (bool_clash hc hf).elim
    | toPark s2 hp hd2 hps2 hl2 hpk =>
      rw [hph] at hp
      injection hp with hs2
      subst hs2
      rcases hps2 with hc | hc
      · exact absurd hc hps
      · exact (bool_clash hc hf).elim
    | parkEnq hp hv => simp [hph] at hp
    | parkAbort hp hv => simp [hph] at hp
    | invoke st hp => simp [hph] at hp
    | poisonSwap hp => simp [hph] at hp
    | completeSwap hp => simp [hph] at hp
    | unparkRun pk need hp => simp [hph] at hp
  · intro ps g i t hr ht hf hpn
    exact ((inv_reach hr).force_ok i t ht hf hpn).1

/-- C5: when the closure returns normally the winning thread disarms the
panic guard (its poisoning action never fires: the only step from the
running phase with a non-panicking closure goes to the `DONE` swap), then
atomically replaces the whole status with exactly `DONE_BIT`
(release-ordered in the source) remembering whether the swapped-out status
had `PARKED_BIT`, and finally calls `unpark_all` if and only if it did. -/
theorem normal_return_publishes :
    (∀ (g g' : GState) (i : Nat) (t : Thread) (st : OnceState),
      g.threads[i]? = some t → t.phase = Phase.running st → t.panics = false →
      OnceStep g g' → g'.threads[i]? ≠ some t →
      g' = ⟨g.status, g.threads.set i
        { t with phase := Phase.doneSwap, invoked := t.invoked + 1 }⟩) ∧
    (∀ (g g' : GState) (i : Nat) (t : Thread),
      g.threads[i]? = some t → t.phase = Phase.doneSwap →
      OnceStep g g' → g'.threads[i]? ≠ some t →
      g' = ⟨DONE_BIT, g.threads.set i
        { t with phase := Phase.unparkOp false (g.status &&& PARKED_BIT != 0) }⟩) ∧
    (∀ (g g' : GState) (i : Nat) (t : Thread) (need : Bool),
      g.threads[i]? = some t → t.phase = Phase.unparkOp false need →
      OnceStep g g' → g'.threads[i]? ≠ some t →
      g' = ⟨g.status, (if need then g.threads.map wake else g.threads).set i
        { t with phase := Phase.retDone }⟩) := by
  refine ⟨?_, ?_, ?_⟩
  · intro g g' i t st ht hph hpn hstep hmoved
    have hloc := step_localize hstep ht (by rw [hph]; intro h; cases h) hmoved
    cases hloc with
    | fastHit hp hs => simp [hph] at hp
    | fastMiss hp hs => simp [hph] at hp
    | loadSnap hp => simp [hph] at hp
    | bodyDone s2 hp hd2 => simp [hph] at hp
    | bodyPoison s2 hp hd2 hps2 hf2 => simp [hph] at hp
    | acqOk s2 hp hd2 hps2 hl2 he => simp [hph] at hp
    | acqFail s2 hp hd2 hps2 hl2 => simp [hph] at hp
    | spinRetry s2 hp hd2 hps2 hl2 hpk => simp [hph] at hp
    | parkCasOk s2 hp hd2 hps2 hl2 hpk he => simp [hph] at hp
    | parkCasFail s2 hp hd2 hps2 hl2 hpk => simp [hph] at hp
    | toPark s2 hp hd2 hps2 hl2 hpk => simp [hph] at hp
    | parkEnq hp hv => simp [hph] at hp
    | parkAbort hp hv => simp [hph] at hp
    | invoke st2 hp => simp [hpn]
    | poisonSwap hp => simp [hph] at hp
    | completeSwap hp => simp [hph] at hp
    | unparkRun pk need hp => simp [hph] at hp
  · intro g g' i t ht hph hstep hmoved
    have hloc := step_localize hstep ht (by rw [hph]; intro h; cases h) hmoved
    cases hloc with
    | fastHit hp hs => simp [hph] at hp
    | fastMiss hp hs => simp [hph] at hp
    | loadSnap hp => simp [hph] at hp
    | bodyDone s2 hp hd2 => simp [hph] at hp
    | bodyPoison s2 hp hd2 hps2 hf2 => simp [hph] at hp
    | acqOk s2 hp hd2 hps2 hl2 he => simp [hph] at hp
    | acqFail s2 hp hd2 hps2 hl2 => simp [hph] at hp
    | spinRetry s2 hp hd2 hps2 hl2 hpk => simp [hph] at hp
    | parkCasOk s2 hp hd2 hps2 hl2 hpk he => simp [hph] at hp
    | parkCasFail s2 hp hd2 hps2 hl2 hpk => simp [hph] at hp
    | toPark s2 hp hd2 hps2 hl2 hpk => simp [hph] at hp
    | parkEnq hp hv => simp [hph] at hp
    | parkAbort hp hv => simp [hph] at hp
    | invoke st2 hp => simp [hph] at hp
    | poisonSwap hp => simp [hph] at hp
    | completeSwap hp => rfl
    | unparkRun pk need hp => simp [hph] at hp
  · intro g g' i t need ht hph hstep hmoved
    have hloc := step_localize hstep ht (by rw [hph]; intro h; cases h) hmoved
    cases hloc with
    | fastHit hp hs => simp [hph] at hp
    | fastMiss hp hs => simp [hph] at hp
    | loadSnap hp => simp [hph] at hp
    | bodyDone s2 hp hd2 => simp [hph] at hp
    | bodyPoison s2 hp hd2 hps2 hf2 => simp [hph] at hp
    | acqOk s2 hp hd2 hps2 hl2 he => simp [hph] at hp
    | acqFail s2 hp hd2 hps2 hl2 => simp [hph] at hp
    | spinRetry s2 hp hd2 hps2 hl2 hpk => simp [hph] at hp
    | parkCasOk s2 hp hd2 hps2 hl2 hpk he => simp [hph] at hp
    | parkCasFail s2 hp hd2 hps2 hl2 hpk => simp [hph] at hp
    | toPark s2 hp hd2 hps2 hl2 hpk => simp [hph] at hp
    | parkEnq hp hv => simp [hph] at hp
    | parkAbort hp hv => simp [hph] at hp
    | invoke st2 hp => simp [hph] at hp
    | poisonSwap hp => simp [hph] at hp
    | completeSwap hp => simp [hph] at hp
    | unparkRun pk need2 hp =>
      rw [hph] at hp
      injection hp with hpk hnd
      subst hpk
      subst hnd
      simp

/-- C6: if the closure unwinds, the panic guard atomically replaces the
whole status with exactly `POISON_BIT` (clearing `DONE_BIT`, `LOCKED_BIT`
and `PARKED_BIT`, release-ordered in the source), then calls `unpark_all`
iff the swapped-out status had `PARKED_BIT`; abnormal exit is the only way
`POISON_BIT` becomes set: a step from a state with no thread pending at the
guard swap never sets it, and a thread is pending at the guard swap only
when its own closure panicked. -/
theorem panic_guard_poisons :
    (∀ (g g' : GState) (i : Nat) (t : Thread),
      g.threads[i]? = some t → t.phase = Phase.unwindSwap →
      OnceStep g g' → g'.threads[i]? ≠ some t →
      g' = ⟨POISON_BIT, g.threads.set i
        { t with phase := Phase.unparkOp true (g.status &&& PARKED_BIT != 0) }⟩) ∧
    (∀ (ps : List (Bool × Bool)) (g g' : GState),
      Reach ps g → OnceStep g g' →
      (∀ (i : Nat) (t : Thread), g.threads[i]? = some t →
        t.phase ≠ Phase.unwindSwap) →
      g.status &&& POISON_BIT = 0 → g'.status &&& POISON_BIT = 0) ∧
    (∀ (ps : List (Bool × Bool)) (g : GState) (i : Nat) (t : Thread),
      Reach ps g → g.threads[i]? = some t → t.phase = Phase.unwindSwap →
      t.panics = true) := by
  refine ⟨?_, ?_, ?_⟩
  · intro g g' i t ht hph hstep hmoved
    have hloc := step_localize hstep ht (by rw [hph]; intro h; cases h) hmoved
    cases hloc with
    | fastHit hp hs => simp [hph] at hp
    | fastMiss hp hs => simp [hph] at hp
    | loadSnap hp => simp [hph] at hp
    | bodyDone s2 hp hd2 => simp [hph] at hp
    | bodyPoison s2 hp hd2 hps2 hf2 => simp [hph] at hp
    | acqOk s2 hp hd2 hps2 hl2 he => simp [hph] at hp
    | acqFail s2 hp hd2 hps2 hl2 => simp [hph] at hp
    | spinRetry s2 hp hd2 hps2 hl2 hpk => simp [hph] at hp
    | parkCasOk s2 hp hd2 hps2 hl2 hpk he => simp [hph] at hp
    | parkCasFail s2 hp hd2 hps2 hl2 hpk => simp [hph] at hp
    | toPark s2 hp hd2 hps2 hl2 hpk => simp [hph] at hp
    | parkEnq hp hv => simp [hph] at hp
    | parkAbort hp hv => simp [hph] at hp
    | invoke st2 hp => simp [hph] at hp
    | poisonSwap hp => rfl
    | completeSwap hp => simp [hph] at hp
    | unparkRun pk need hp => simp [hph] at hp
  · intro ps g g' hr hstep hnone hP0
    have hInv := inv_reach hr
    cases hstep with
    | fastHit j u htj hp hs => exact hP0
    | fastMiss j u htj hp hs => exact hP0
    | loadSnap j u htj hp => exact hP0
    | bodyDone j u s htj hp hd2 => exact hP0
    | bodyPoison j u s htj hp hd2 hps hf => exact hP0
    | acqOk j u s htj hp hd2 hps hl he =>
      have hs16 : s < 16 := he ▸ hInv.status_lt
      exact acq_mask_poison s hs16
    | acqFail j u s htj hp hd2 hps hl => exact hP0
    | spinRetry j u s htj hp hd2 hps hl hpk => exact hP0
    | parkCasOk j u s htj hp hd2 hps hl hpk he =>
      have hs16 : s < 16 := he ▸ hInv.status_lt
      rw [he] at hP0
      rw [park_mask_poison s hs16]
      exact hP0
    | parkCasFail j u s htj hp hd2 hps hl hpk => exact hP0
    | toPark j u s htj hp hd2 hps hl hpk => exact hP0
    | parkEnq j u htj hp hv => exact hP0
    | parkAbort j u htj hp hv => exact hP0
    | invoke j u st htj hp => exact hP0
    | poisonSwap j u htj hp =>
      exact absurd hp (hnone j u htj)
    | completeSwap j u htj hp =>
      show DONE_BIT &&& POISON_BIT = 0
      decide
    | unparkRun j u pk need htj hp => exact hP0
  · intro ps g i t hr ht hp
    exact (inv_reach hr).unwind_panics i t ht hp

/-- C7: the `OnceState` handed to the closure is a boolean snapshot equal to
the `POISON_BIT` test of the expected value of the successful lock-acquiring
compare-exchange (which equals the status the exchange replaced), and
`OnceState::poisoned` returns exactly that boolean. -/
theorem once_state_snapshot :
    (∀ (g g' : GState) (i : Nat) (t t' : Thread) (s : Nat) (st : OnceState),
      g.threads[i]? = some t → t.phase = Phase.loopBody s →
      OnceStep g g' → g'.threads[i]? = some t' → t'.phase = Phase.running st →
      g.status = s ∧ st.poisoned = (s &&& POISON_BIT != 0)) ∧
    (∀ b : Bool, (OnceState.mk b).poisoned = b) := by
  constructor
  · intro g g' i t t' s st ht hph hstep ht' hpt'
    have hmoved : g'.threads[i]? ≠ some t := by
      rw [ht']
      intro hcontra
      injection hcontra with hc
      rw [hc] at hpt'
      rw [hph] at hpt'
      cases hpt'
    have hloc := step_localize hstep ht (by rw [hph]; intro h; cases h) hmoved
    cases hloc with
    | fastHit hp hs => simp [hph] at hp
    | fastMiss hp hs => simp [hph] at hp
    | loadSnap hp => simp [hph] at hp
    | bodyDone s2 hp hd2 =>
      have h2 := (lookup_set_self ht).symm.trans ht'
      injection h2 with h3
      rw [← h3] at hpt'
      cases hpt'
    | bodyPoison s2 hp hd2 hps2 hf2 =>
      have h2 := (lookup_set_self ht).symm.trans ht'
      injection h2 with h3
      rw [← h3] at hpt'
      cases hpt'
    | acqOk s2 hp hd2 hps2 hl2 he =>
      rw [hph] at hp
      injection hp with hs2
      subst hs2
      have h2 := (lookup_set_self ht).symm.trans ht'
      injection h2 with h3
      rw [← h3] at hpt'
      injection hpt' with h4
      rw [← h4]
      exact ⟨he, rfl⟩
    | acqFail s2 hp hd2 hps2 hl2 =>
      have h2 := (lookup_set_self ht).symm.trans ht'
      injection h2 with h3
      rw [← h3] at hpt'
      cases hpt'
    | spinRetry s2 hp hd2 hps2 hl2 hpk =>
      have h2 := (lookup_set_self ht).symm.trans ht'
      injection h2 with h3
      rw [← h3] at hpt'
      cases hpt'
    | parkCasOk s2 hp hd2 hps2 hl2 hpk he =>
      have h2 := (lookup_set_self ht).symm.trans ht'
      injection h2 with h3
      rw [← h3] at hpt'
      cases hpt'
    | parkCasFail s2 hp hd2 hps2 hl2 hpk =>
      have h2 := (lookup_set_self ht).symm.trans ht'
      injection h2 with h3
      rw [← h3] at hpt'
      cases hpt'
    | toPark s2 hp hd2 hps2 hl2 hpk =>
      have h2 := (lookup_set_self ht).symm.trans ht'
      injection h2 with h3
      rw [← h3] at hpt'
      cases hpt'
    | parkEnq hp hv => simp [hph] at hp
    | parkAbort hp hv => simp [hph] at hp
    | invoke st2 hp => simp [hph] at hp
    | poisonSwap hp => simp [hph] at hp
    | completeSwap hp => simp [hph] at hp
    | unparkRun pk need hp => simp [hph] at hp
  · intro b
    rfl

/-! ### Concrete executions used to instantiate the theorems -/

/-- Two `call_once` callers with non-panicking closures. -/
def ps1 : List (Bool × Bool) := [(false, false), (false, false)]

/-- Thread 0 has completed its whole `call_once`; thread 1 has not run. -/
def g1done : GState :=
  ⟨1, [⟨false, false, Phase.retDone, 1⟩, ⟨false, false, Phase.fastLoad, 0⟩]⟩

/-- Both callers have returned. -/
def g1fin : GState :=
  ⟨1, [⟨false, false, Phase.retDone, 1⟩, ⟨false, false, Phase.retDone, 0⟩]⟩

theorem reach1_done : Reach ps1 g1done := by
  refine Relation.ReflTransGen.head
    (OnceStep.fastMiss _ 0 ⟨false, false, Phase.fastLoad, 0⟩ (by decide) rfl (by decide)) ?_
  refine Relation.ReflTransGen.head
    (OnceStep.loadSnap _ 0 ⟨false, false, Phase.loopLoad, 0⟩ (by decide) rfl) ?_
  refine Relation.ReflTransGen.head
    (OnceStep.acqOk _ 0 ⟨false, false, Phase.loopBody 0, 0⟩ 0 (by decide) (by decide)
      (by decide) (Or.inl (by decide)) (by decide) (by decide)) ?_
  refine Relation.ReflTransGen.head
    (OnceStep.invoke _ 0 ⟨false, false, Phase.running ⟨false⟩, 0⟩ ⟨false⟩
      (by decide) rfl) ?_
  refine Relation.ReflTransGen.head
    (OnceStep.completeSwap _ 0 ⟨false, false, Phase.doneSwap, 1⟩ (by decide) rfl) ?_
  refine Relation.ReflTransGen.head
    (OnceStep.unparkRun _ 0 ⟨false, false, Phase.unparkOp false false, 1⟩ false false
      (by decide) rfl) ?_
  exact Relation.ReflTransGen.refl

theorem reach1_fin : Reach ps1 g1fin := by
  refine Relation.ReflTransGen.tail reach1_done ?_
  exact OnceStep.fastHit g1done 1 ⟨false, false, Phase.fastLoad, 0⟩ (by decide) rfl (by decide)

/-- Caller 0: `call_once` with a panicking closure; caller 1: `call_once`;
caller 2: `call_once_force` with a non-panicking closure. -/
def ps2 : List (Bool × Bool) := [(false, true), (false, false), (true, false)]

/-- Thread 0 holds the lock and its closure has just unwound: the
`PanicGuard` swap is pending. -/
def g2unwind : GState :=
  ⟨4, [⟨false, true, Phase.unwindSwap, 1⟩, ⟨false, false, Phase.fastLoad, 0⟩,
    ⟨true, false, Phase.fastLoad, 0⟩]⟩

/-- The guard has fired, poisoning the primitive, and thread 0 rethrew. -/
def g2poisoned : GState :=
  ⟨2, [⟨false, true, Phase.retPanic, 1⟩, ⟨false, false, Phase.fastLoad, 0⟩,
    ⟨true, false, Phase.fastLoad, 0⟩]⟩

/-- Thread 1 (non-forcing) holds a poisoned snapshot in the slow-path loop. -/
def g2body : GState :=
  ⟨2, [⟨false, true, Phase.retPanic, 1⟩, ⟨false, false, Phase.loopBody 2, 0⟩,
    ⟨true, false, Phase.fastLoad, 0⟩]⟩

/-- Thread 1 panicked on the poisoned primitive. -/
def g2panicked : GState :=
  ⟨2, [⟨false, true, Phase.retPanic, 1⟩, ⟨false, false, Phase.retPanic, 0⟩,
    ⟨true, false, Phase.fastLoad, 0⟩]⟩

/-- Thread 2 (forcing) holds a poisoned snapshot in the slow-path loop. -/
def g2force : GState :=
  ⟨2, [⟨false, true, Phase.retPanic, 1⟩, ⟨false, false, Phase.retPanic, 0⟩,
    ⟨true, false, Phase.loopBody 2, 0⟩]⟩

/-- Thread 2 won the lock with a poisoned snapshot. -/
def g2run : GState :=
  ⟨4, [⟨false, true, Phase.retPanic, 1⟩, ⟨false, false, Phase.retPanic, 0⟩,
    ⟨true, false, Phase.running ⟨true⟩, 0⟩]⟩

/-- Thread 2's recovery closure completed; the primitive is done. -/
def g2fin : GState :=
  ⟨1, [⟨false, true, Phase.retPanic, 1⟩, ⟨false, false, Phase.retPanic, 0⟩,
    ⟨true, false, Phase.retDone, 1⟩]⟩

theorem reach2_unwind : Reach ps2 g2unwind := by
  refine Relation.ReflTransGen.head
    (OnceStep.fastMiss _ 0 ⟨false, true, Phase.fastLoad, 0⟩ (by decide) rfl (by decide)) ?_
  refine Relation.ReflTransGen.head
    (OnceStep.loadSnap _ 0 ⟨false, true, Phase.loopLoad, 0⟩ (by decide) rfl) ?_
  refine Relation.ReflTransGen.head
    (OnceStep.acqOk _ 0 ⟨false, true, Phase.loopBody 0, 0⟩ 0 (by decide) (by decide)
      (by decide) (Or.inl (by decide)) (by decide) (by decide)) ?_
  refine Relation.ReflTransGen.head
    (OnceStep.invoke _ 0 ⟨false, true, Phase.running ⟨false⟩, 0⟩ ⟨false⟩
      (by decide) rfl) ?_
  exact Relation.ReflTransGen.refl

theorem reach2_poisoned : Reach ps2 g2poisoned := by
  refine Relation.ReflTransGen.tail (Relation.ReflTransGen.tail reach2_unwind
    (OnceStep.poisonSwap g2unwind 0 ⟨false, true, Phase.unwindSwap, 1⟩ (by decide) rfl)) ?_
  exact OnceStep.unparkRun _ 0 ⟨false, true, Phase.unparkOp true false, 1⟩ true false
    (by decide) rfl

theorem reach2_body : Reach ps2 g2body := by
  refine Relation.ReflTransGen.tail (Relation.ReflTransGen.tail reach2_poisoned
    (OnceStep.fastMiss g2poisoned 1 ⟨false, false, Phase.fastLoad, 0⟩
      (by decide) rfl (by decide))) ?_
  exact OnceStep.loadSnap _ 1 ⟨false, false, Phase.loopLoad, 0⟩ (by decide) rfl

theorem reach2_panicked : Reach ps2 g2panicked := by
  refine Relation.ReflTransGen.tail reach2_body ?_
  exact OnceStep.bodyPoison g2body 1 ⟨false, false, Phase.loopBody 2, 0⟩ 2
    (by decide) rfl (by decide) (by decide) rfl

theorem reach2_force : Reach ps2 g2force := by
  refine Relation.ReflTransGen.tail (Relation.ReflTransGen.tail reach2_panicked
    (OnceStep.fastMiss g2panicked 2 ⟨true, false, Phase.fastLoad, 0⟩
      (by decide) rfl (by decide))) ?_
  exact OnceStep.loadSnap _ 2 ⟨true, false, Phase.loopLoad, 0⟩ (by decide) rfl

theorem reach2_run : Reach ps2 g2run := by
  refine Relation.ReflTransGen.tail reach2_force ?_
  exact OnceStep.acqOk g2force 2 ⟨true, false, Phase.loopBody 2, 0⟩ 2
    (by decide) rfl (by decide) (Or.inr rfl) (by decide) (by decide)

theorem reach2_fin : Reach ps2 g2fin := by
  refine Relation.ReflTransGen.tail (Relation.ReflTransGen.tail (Relation.ReflTransGen.tail
    reach2_run
    (OnceStep.invoke g2run 2 ⟨true, false, Phase.running ⟨true⟩, 0⟩ ⟨true⟩ (by decide) rfl))
    (OnceStep.completeSwap _ 2 ⟨true, false, Phase.doneSwap, 1⟩ (by decide) rfl)) ?_
  exact OnceStep.unparkRun _ 2 ⟨true, false, Phase.unparkOp false false, 1⟩ false false
    (by decide) rfl

/-! ### Witnesses -/

/-- Thread 0 of `ps1` about to attempt the lock-acquiring exchange. -/
def g1body : GState :=
  ⟨0, [⟨false, false, Phase.loopBody 0, 0⟩, ⟨false, false, Phase.fastLoad, 0⟩]⟩

/-- Thread 0 of `ps1` holding the lock. -/
def g1run : GState :=
  ⟨4, [⟨false, false, Phase.running ⟨false⟩, 0⟩, ⟨false, false, Phase.fastLoad, 0⟩]⟩

/-- Thread 0 of `ps1` at the `DONE` swap. -/
def g1ds : GState :=
  ⟨4, [⟨false, false, Phase.doneSwap, 1⟩, ⟨false, false, Phase.fastLoad, 0⟩]⟩

/-- Thread 0 of `ps1` past the `DONE` swap, about to skip `unpark_all`. -/
def g1uo : GState :=
  ⟨1, [⟨false, false, Phase.unparkOp false false, 1⟩, ⟨false, false, Phase.fastLoad, 0⟩]⟩

/-- Thread 0 of `ps2` past the guard's `POISON` swap. -/
def g2up : GState :=
  ⟨2, [⟨false, true, Phase.unparkOp true false, 1⟩, ⟨false, false, Phase.fastLoad, 0⟩,
    ⟨true, false, Phase.fastLoad, 0⟩]⟩

theorem call_once_exactly_one_witness :
    (g1fin.threads.map Thread.invoked).sum = 1 :=
  call_once_exactly_one reach1_fin (by decide) (by decide) (by decide) (by decide)

theorem fast_path_spec_witness :
    fastPathHit g1done.status = true ∧
    g1fin = ⟨g1done.status, g1done.threads.set 1 ⟨false, false, Phase.retDone, 0⟩⟩ := by
  have h := @fast_path_spec ps1 g1done 1 ⟨false, false, Phase.fastLoad, 0⟩
    reach1_done (by decide) rfl
  refine ⟨h.1.mpr (by decide), ?_⟩
  exact h.2 (by decide) g1fin
    (OnceStep.fastHit g1done 1 ⟨false, false, Phase.fastLoad, 0⟩ (by decide) rfl (by decide))
    (by decide)

theorem acquire_cas_spec_witness :
    (g1body.status = 0 ∧
      g1run = ⟨(0 ||| LOCKED_BIT) &&& (255 ^^^ POISON_BIT),
        g1body.threads.set 0 ⟨false, false, Phase.running ⟨false⟩, 0⟩⟩) ∨
    g1run = ⟨g1body.status,
      g1body.threads.set 0 ⟨false, false, Phase.loopBody g1body.status, 0⟩⟩ :=
  @acquire_cas_spec g1body g1run 0 ⟨false, false, Phase.loopBody 0, 0⟩ 0
    (by decide) rfl (by decide) (Or.inl (by decide)) (by decide)
    (OnceStep.acqOk g1body 0 ⟨false, false, Phase.loopBody 0, 0⟩ 0 (by decide) rfl
      (by decide) (Or.inl (by decide)) (by decide) (by decide))
    (by decide)

theorem poison_panic_spec_witness :
    g2panicked = ⟨g2body.status, g2body.threads.set 1 ⟨false, false, Phase.retPanic, 0⟩⟩ ∧
    (⟨true, false, Phase.retDone, 1⟩ : Thread).phase ≠ Phase.retPanic := by
  constructor
  · exact poison_panic_spec.1 g2body g2panicked 1 ⟨false, false, Phase.loopBody 2, 0⟩ 2
      (by decide) rfl (by decide) (by decide) rfl
      (OnceStep.bodyPoison g2body 1 ⟨false, false, Phase.loopBody 2, 0⟩ 2 (by decide) rfl
        (by decide) (by decide) rfl)
      (by decide)
  · exact poison_panic_spec.2 ps2 g2fin 2 ⟨true, false, Phase.retDone, 1⟩ reach2_fin
      (by decide) rfl rfl

theorem normal_return_publishes_witness :
    g1ds = ⟨g1run.status, g1run.threads.set 0 ⟨false, false, Phase.doneSwap, 1⟩⟩ ∧
    g1uo = ⟨DONE_BIT, g1ds.threads.set 0 ⟨false, false, Phase.unparkOp false false, 1⟩⟩ ∧
    g1done = ⟨g1uo.status,
      (if false then g1uo.threads.map wake else g1uo.threads).set 0
        ⟨false, false, Phase.retDone, 1⟩⟩ := by
  refine ⟨?_, ?_, ?_⟩
  · exact normal_return_publishes.1 g1run g1ds 0 ⟨false, false, Phase.running ⟨false⟩, 0⟩
      ⟨false⟩ (by decide) rfl rfl
      (OnceStep.invoke g1run 0 ⟨false, false, Phase.running ⟨false⟩, 0⟩ ⟨false⟩
        (by decide) rfl)
      (by decide)
  · exact normal_return_publishes.2.1 g1ds g1uo 0 ⟨false, false, Phase.doneSwap, 1⟩
      (by decide) rfl
      (OnceStep.completeSwap g1ds 0 ⟨false, false, Phase.doneSwap, 1⟩ (by decide) rfl)
      (by decide)
  · exact normal_return_publishes.2.2 g1uo g1done 0
      ⟨false, false, Phase.unparkOp false false, 1⟩ false (by decide) rfl
      (OnceStep.unparkRun g1uo 0 ⟨false, false, Phase.unparkOp false false, 1⟩ false false
        (by decide) rfl)
      (by decide)

theorem panic_guard_poisons_witness :
    g2up = ⟨POISON_BIT,
      g2unwind.threads.set 0 ⟨false, true, Phase.unparkOp true false, 1⟩⟩ ∧
    g1fin.status &&& POISON_BIT = 0 ∧
    (⟨false, true, Phase.unwindSwap, 1⟩ : Thread).panics = true := by
  refine ⟨?_, ?_, ?_⟩
  · exact panic_guard_poisons.1 g2unwind g2up 0 ⟨false, true, Phase.unwindSwap, 1⟩
      (by decide) rfl
      (OnceStep.poisonSwap g2unwind 0 ⟨false, true, Phase.unwindSwap, 1⟩ (by decide) rfl)
      (by decide)
  · refine panic_guard_poisons.2.1 ps1 g1done g1fin reach1_done
      (OnceStep.fastHit g1done 1 ⟨false, false, Phase.fastLoad, 0⟩ (by decide) rfl
        (by decide))
      ?_ (by decide)
    intro i t ht
    have hm : t ∈ g1done.threads := List.mem_iff_getElem?.mpr ⟨i, ht⟩
    have hall : ∀ t ∈ g1done.threads, t.phase ≠ Phase.unwindSwap := by decide
    exact hall t hm
  · exact panic_guard_poisons.2.2 ps2 g2unwind 0 ⟨false, true, Phase.unwindSwap, 1⟩
      reach2_unwind (by decide) rfl

theorem once_state_snapshot_witness :
    (g2force.status = 2 ∧
      (⟨true⟩ : OnceState).poisoned = (2 &&& POISON_BIT != 0)) ∧
    (OnceState.mk true).poisoned = true := by
  constructor
  · exact once_state_snapshot.1 g2force g2run 2 ⟨true, false, Phase.loopBody 2, 0⟩
      ⟨true, false, Phase.running ⟨true⟩, 0⟩ 2 ⟨true⟩ (by decide) rfl
      (OnceStep.acqOk g2force 2 ⟨true, false, Phase.loopBody 2, 0⟩ 2 (by decide) rfl
        (by decide) (Or.inr rfl) (by decide) (by decide))
      (by decide) rfl
  · exact once_state_snapshot.2 true

theorem done_bit_permanent_witness :
    g1fin.status &&& DONE_BIT ≠ 0 ∧
    (⟨false, false, Phase.retDone, 1⟩ : Thread).phase ≠ Phase.unwindSwap := by
  have hs : Relation.ReflTransGen OnceStep g1done g1fin :=
    Relation.ReflTransGen.single
      (OnceStep.fastHit g1done 1 ⟨false, false, Phase.fastLoad, 0⟩ (by decide) rfl
        (by decide))
  have h := done_bit_permanent reach1_done (by decide) hs
  exact ⟨h.1, h.2 0 ⟨false, false, Phase.retDone, 1⟩ (by decide)⟩

theorem done_exact_reachable_witness :
    g1done.status = DONE_BIT ∧ fastPathHit g1done.status = true := by
  have h := done_exact_reachable reach1_done
  exact ⟨h.1 (by decide), h.2.mpr (by decide)⟩

theorem closure_invoked_at_most_once_witness :
    (⟨false, false, Phase.retDone, 1⟩ : Thread).invoked ≤ 1 :=
  closure_invoked_at_most_once reach1_fin ⟨false, false, Phase.retDone, 1⟩ (by decide)

end ParkingLotOnce
